import Mathlib

/-!
Shallow embedding of the fastapi_solo library core, verified against its
natural-language specification.

The embedding covers:
* the pagination meta computation (`fastapi_solo/utils/pagination.py`),
* the transaction scope-exit protocol (`fastapi_solo/db/database.py`,
  `Transaction.__exit__`),
* the query DSL (`fastapi_solo/db/queryable.py`): attribute resolution,
  `query_by` filtering, and `includes` eager-load resolution,
* the schema synthesis engine (`fastapi_solo/serialization/schema_models.py`):
  spec normalization, the canonical cache key, and the schema cache.

Python values are modelled by explicit inductive types; dictionaries by
association lists with Python's insert/overwrite semantics; exceptions by
`Except`/`Option` or by explicit result fields; the process-global schema
cache by explicit state passing.  User-defined scope functions are modelled
as total Lean functions (the engine calls them as black boxes).
-/

namespace FastapiSolo

/-! ## String helpers

Python string primitives used by the library, re-implemented on `List Char`
so that everything reduces in the kernel.  `pyLower`/`underscore` model the
`inflection.underscore` conversion (two regex passes inserting underscores at
case boundaries, then dash replacement and lower-casing), restricted to ASCII
input, which is the only input the library feeds it. -/

def isUpperAZ (c : Char) : Bool := 'A' ≤ c && c ≤ 'Z'

def isLowerAZ (c : Char) : Bool := 'a' ≤ c && c ≤ 'z'

def isDigit09 (c : Char) : Bool := '0' ≤ c && c ≤ '9'

def pyLowerChar (c : Char) : Char :=
  if isUpperAZ c then Char.ofNat (c.toNat + 32) else c

/-- Inserts an underscore between a lower/digit - upper boundary and between
an upper-upper boundary that is followed by a lower-case letter; this is the
combined effect of the two regex substitutions in `inflection.underscore`. -/
def undMark : List Char → List Char
  | c1 :: c2 :: rest =>
    let sep :=
      ((isLowerAZ c1 || isDigit09 c1) && isUpperAZ c2) ||
      (isUpperAZ c1 && isUpperAZ c2 &&
        (match rest with | c3 :: _ => isLowerAZ c3 | [] => false))
    if sep then c1 :: '_' :: undMark (c2 :: rest) else c1 :: undMark (c2 :: rest)
  | l => l

/-- `inflection.underscore`: camelCase to snake_case. -/
def underscore (s : String) : String :=
  String.mk ((undMark s.data).map (fun c => pyLowerChar (if c = '-' then '_' else c)))

def isPySpace (c : Char) : Bool := c = ' ' || c = '\t' || c = '\n' || c = '\r'

/-- Python `str.strip()` (common whitespace only). -/
def pyStrip (s : String) : String :=
  String.mk ((((s.data.dropWhile isPySpace).reverse).dropWhile isPySpace).reverse)

/-- Whether `needle` occurs at the head of `hay`. -/
def leadsWith : List Char → List Char → Bool
  | [], _ => true
  | _ :: _, [] => false
  | a :: as, b :: bs => a == b && leadsWith as bs

/-- Whether `needle` occurs as a contiguous substring of `hay`
(Python `needle in hay`). -/
def hasSub (needle : List Char) : List Char → Bool
  | [] => leadsWith needle []
  | c :: t => leadsWith needle (c :: t) || hasSub needle t

def strHasSub (needle hay : String) : Bool := hasSub needle.data hay.data

/-- Lexicographic comparison of char lists by code point, Python's string
order for ASCII. -/
def lexLe : List Char → List Char → Bool
  | [], _ => true
  | _ :: _, [] => false
  | a :: as, b :: bs =>
    if a.toNat < b.toNat then true
    else if b.toNat < a.toNat then false
    else lexLe as bs

def strLe (a b : String) : Prop := lexLe a.data b.data = true

instance : DecidableRel strLe := fun a b =>
  inferInstanceAs (Decidable (lexLe a.data b.data = true))

/-- Membership of a character in a char list (Python `c in s`). -/
def charMem (c : Char) : List Char → Bool
  | [] => false
  | x :: rest => x == c || charMem c rest

/-- Whether the last character of the list is `c`. -/
def lastIs (c : Char) : List Char → Bool
  | [] => false
  | [x] => x == c
  | _ :: x :: rest => lastIs c (x :: rest)

/-- Characters strictly before the first occurrence of `c`
(`s.split(c)[0]`). -/
def takeUntilChar (c : Char) : List Char → List Char
  | [] => []
  | x :: rest => if x == c then [] else x :: takeUntilChar c rest

/-- Characters strictly after the first occurrence of `c` (empty when `c`
is absent; only used under a presence guard, like `s.split(c, 1)[1]`). -/
def afterFirstChar (c : Char) : List Char → List Char
  | [] => []
  | x :: rest => if x == c then rest else afterFirstChar c rest

/-- Python `s.split(c)` on char lists: `""` splits to `[""]`. -/
def splitOnCharL (c : Char) : List Char → List (List Char)
  | [] => [[]]
  | x :: rest =>
    let r := splitOnCharL c rest
    if x == c then [] :: r
    else
      match r with
      | h :: t => (x :: h) :: t
      | [] => [[x]]

/-- Python `s.split(sep)` for a one-character separator, as strings. -/
def pySplitChar (c : Char) (s : String) : List String :=
  (splitOnCharL c s.data).map (fun l => String.mk l)

/-- Digit list to value, for `pyIntParse`. -/
def digitsVal : List Char → Nat → Nat
  | [], acc => acc
  | c :: rest, acc => digitsVal rest (acc * 10 + (c.toNat - 48))

/-- Digit-sequence check. -/
def allDigits : List Char → Bool
  | [] => true
  | c :: rest => isDigit09 c && allDigits rest

/-- Python `int(string)` on an already stripped char list: optional sign
and a nonempty digit sequence (underscore separators are not modelled). -/
def pyIntParse (cs : List Char) : Option Int :=
  match cs with
  | '+' :: rest => if !rest.isEmpty && allDigits rest then some (digitsVal rest 0) else none
  | '-' :: rest => if !rest.isEmpty && allDigits rest then some (-(digitsVal rest 0 : Int)) else none
  | _ => if !cs.isEmpty && allDigits cs then some (digitsVal cs 0) else none

/-! ## Pagination (`fastapi_solo/utils/pagination.py`) -/

/-- `FastapiSoloConfig.pagination_size`. -/
def paginationSize : Nat := 20

/-- The `meta` object of a paginated response envelope. -/
structure PageMeta where
  total : Nat
  pageSize : Nat
  totalPages : Nat
  currentPage : Nat
  nextPage : Option Nat
  previousPage : Option Nat
deriving Repr, DecidableEq

/-- The meta computation of `paginate_result` for an integer page size
(`size=0` would raise `ZeroDivisionError` in Python; the claims and all
callers use positive sizes). -/
def paginateMeta (count page size : Nat) : PageMeta :=
  let totalPages0 := count / size + 1
  let totalPages := if count % size = 0 then totalPages0 - 1 else totalPages0
  { total := count
    pageSize := size
    totalPages := totalPages
    currentPage := page
    nextPage := if page < totalPages then some (page + 1) else none
    previousPage := if 1 < page then some (page - 1) else none }

/-- Page size argument of `paginate_result`: an integer or the string
sentinel `"all"`. -/
inductive PageSizeArg where
  | num : Nat → PageSizeArg
  | all
deriving Repr, DecidableEq

/-- `paginate_result`: `size=None` falls back to the configured default;
`size="all"` omits `meta` entirely (modelled as `none`). -/
def paginateResultMeta (count page : Nat) (size : Option PageSizeArg) : Option PageMeta :=
  match size.getD (.num paginationSize) with
  | .all => none
  | .num n => some (paginateMeta count page n)

/-! ## Transaction scope exit (`fastapi_solo/db/database.py`) -/

/-- The underlying SQLAlchemy transaction handle, reduced to its activity
flag, which is all `Transaction.__exit__` inspects. -/
structure TxHandle where
  isActive : Bool
deriving Repr, DecidableEq

/-- The `Transaction` instance state at scope exit: the handle acquired by
`_begin` (falsy/absent modelled as `none`) and the `_force_rollback` flag. -/
structure TransactionState where
  tx : Option TxHandle
  forceRollback : Bool
deriving Repr, DecidableEq

inductive TxAction where
  | rolledBack
  | committed
  | noop
deriving Repr, DecidableEq

/-- Result of `Transaction.__exit__`: which session operation ran, the
boolean returned to the interpreter (`false` lets a pending exception
propagate, `true` would suppress it), and whether the manual-closure
warning was logged. -/
structure TxExitResult where
  action : TxAction
  suppress : Bool
  warned : Bool
deriving Repr, DecidableEq

/-- `Transaction.__exit__(exc_type, ...)` with `excRaised = (exc_type is not
None)`. -/
def txExit (st : TransactionState) (excRaised : Bool) : TxExitResult :=
  match st.tx with
  | none => { action := .noop, suppress := false, warned := true }
  | some h =>
    if !h.isActive then { action := .noop, suppress := false, warned := true }
    else if st.forceRollback || excRaised then
      { action := .rolledBack, suppress := false, warned := false }
    else { action := .committed, suppress := true, warned := false }

/-! ## The query DSL (`fastapi_solo/db/queryable.py`)

Models are embedded as attribute tables.  A model attribute is either an
instrumented ORM attribute (carrying a `ColumnProperty` or a
`RelationshipProperty`) or a user-defined callable scope.  Scopes are opaque
user functions; a Python callable is variadic, so a scope receives its extra
arguments as a list (`of_x(q, value)` becomes `f q [value]`,
`of_x(q, json_key, value)` becomes `f q [jsonKey, value]`). -/

/-- `column.type.python_type` outcomes distinguished by
`Queryable._apply_column_filter`. -/
inductive PyType where
  | pybool
  | pyint
  | pyfloat
  | pystr
  | pydatetime
  | pydate
  | pyother
deriving Repr, DecidableEq

/-- Raw filter values arriving from the request layer (query-param strings,
lists, occasionally parsed bools/ints, or Python `None`). -/
inductive Val where
  | vnone
  | vbool : Bool → Val
  | vint : Int → Val
  | vstr : String → Val
  | vlist : List Val → Val
deriving Repr

/-- A typed column filter expression, as produced by
`_apply_column_filter`. -/
inductive ColFilter where
  | eqBool : String → Option Bool → ColFilter
  | eqInt : String → Int → ColFilter
  | eqFloat : String → Val → ColFilter
  | icontains : String → Val → ColFilter
  | dateBetween : String → Val → Val → ColFilter
  | dateEq : String → Val → ColFilter
  | eqRaw : String → Val → ColFilter
deriving Repr

/-- One chained eager-load step (`selectinload` for collection
relationships, `joinedload` for single-row ones). -/
inductive LoadStep where
  | selectin : String → LoadStep
  | joined : String → LoadStep
deriving Repr, DecidableEq

/-- An `options(...)` argument: the wildcard `selectinload("*")` or a chained
loader. -/
inductive LoadOpt where
  | star
  | chain : List LoadStep → LoadOpt
deriving Repr, DecidableEq

/-- A query object, recording the operations applied to it. -/
inductive Query where
  | base : String → Query
  | filter : Query → ColFilter → Query
  | options : Query → LoadOpt → Query
  | offsetLimit : Query → Nat → Nat → Query
  | orderBy : Query → String → Bool → Query
  | scoped : Query → String → List Val → Query
deriving Repr

/-- The `.property` of an instrumented attribute. -/
structure ColumnQ where
  name : String
  pyType : PyType
deriving Repr, DecidableEq

inductive AttrProp where
  | columnP : ColumnQ → AttrProp
  | relationshipP : (target : String) → (uselist : Bool) → AttrProp
deriving Repr, DecidableEq

/-- A model attribute as seen by `getattr`: instrumented ORM attribute or
callable scope. -/
inductive Attr where
  | instrumented : AttrProp → Attr
  | scope : (Query → List Val → Query) → Attr

/-- `callable(attr)` for model attributes. -/
def Attr.isCallable : Attr → Bool
  | .instrumented _ => false
  | .scope _ => true

/-- A mapped model class: its attribute table, the
`__mapper__.polymorphic_map` subtype class names, and the `__queryable__`
list when the `queryable` decorator was applied (`none` models a missing
attribute). -/
structure ModelQ where
  name : String
  attrs : List (String × Attr)
  polyMap : List String
  queryable : Option (List String)

/-- The class registry: model name to model class. -/
abbrev RegistryQ := List (String × ModelQ)

/-- `getattr(model, key, None)` on the attribute table. -/
def getAttrRaw (m : ModelQ) (key : String) : Option Attr :=
  m.attrs.lookup key

/-- Probe of the polymorphic subtype classes, first match wins
(the loop in `_get_model_attr_k`). -/
def polyProbe (reg : RegistryQ) (subs : List String) (key : String) : Option Attr :=
  match subs with
  | [] => none
  | s :: rest =>
    match (reg.lookup s).bind (fun m => getAttrRaw m key) with
    | some a => some a
    | none => polyProbe reg rest key

/-- `Queryable._get_model_attr_k`: the key on the model itself, then, if
absent and the model has a polymorphic map, on each registered subtype. -/
def getModelAttrK (reg : RegistryQ) (m : ModelQ) (key : String) : Option Attr :=
  match getAttrRaw m key with
  | some a => some a
  | none => if m.polyMap.isEmpty then none else polyProbe reg m.polyMap key

/-- `Queryable._get_model_attr`: `_get_model_attr_k` with the key verbatim,
then with the key converted by `inflection.underscore`. -/
def getModelAttr (reg : RegistryQ) (m : ModelQ) (key : String) : Option Attr :=
  match getModelAttrK reg m key with
  | some a => some a
  | none => getModelAttrK reg m (underscore key)

/-- `parse_bool` (`fastapi_solo/utils/misc.py`): `Except.error` models the
`AttributeError` raised by `.strip()` on a truthy non-string, non-bool
value; the `ok none` results are the null/no-match marker. -/
def pyParseBool : Val → Except Unit (Option Bool)
  | .vbool b => .ok (some b)
  | .vstr s =>
    let s' := pyStrip s
    if s' = "true" then .ok (some true)
    else if s' = "false" then .ok (some false)
    else .ok none
  | .vnone => .ok none
  | .vint n => if n = 0 then .ok none else .error ()
  | .vlist l => if l.isEmpty then .ok none else .error ()

/-- Python `int(value)`: ints and bools convert, strings parse after
stripping whitespace (underscore separators are not modelled), everything
else raises. -/
def pyInt : Val → Except Unit Int
  | .vint n => .ok n
  | .vbool b => .ok (if b then 1 else 0)
  | .vstr s =>
    match pyIntParse (pyStrip s).data with
    | some n => .ok n
    | none => .error ()
  | _ => .error ()

/-- Decimal literal body: digits with at most one dot and at least one
digit. -/
def floatBody (cs : List Char) : Bool :=
  match splitOnCharL '.' cs with
  | [a] => !a.isEmpty && allDigits a
  | [a, b] => (!a.isEmpty || !b.isEmpty) && allDigits a && allDigits b
  | _ => false

/-- Whether Python `float(value)` succeeds (decimal literals with optional
sign; exponent and inf/nan spellings are not modelled — no claim depends on
them). -/
def pyFloatOk : Val → Bool
  | .vint _ => true
  | .vbool _ => true
  | .vstr s =>
    let cs := (pyStrip s).data
    match cs with
    | '+' :: rest => floatBody rest
    | '-' :: rest => floatBody rest
    | _ => floatBody cs
  | _ => false

/-- The warning message logged when a filter value fails coercion (the
Python message also interpolates the offending value). -/
def invalidFilterWarning (colName : String) : String :=
  "Invalid filter value for " ++ colName ++ " - skipping filter"

/-- `FastapiSoloConfig.queryable_use_like`. -/
structure QConfig where
  useLike : Bool
deriving Repr, DecidableEq

/-- The date/datetime branch of `_apply_column_filter`: a comma-separated
string or a two-element list is an inclusive between-range (a wrong arity
raises inside the try and is caught); anything else is an exact date
match. -/
def applyDateFilter (q : Query) (value : Val) (col : ColumnQ) : Query × List String :=
  match value with
  | .vstr s =>
    if charMem ',' s.data then
      match pySplitChar ',' s with
      | [x, y] => (q.filter (.dateBetween col.name (.vstr (pyStrip x)) (.vstr (pyStrip y))), [])
      | _ => (q, [invalidFilterWarning col.name])
    else (q.filter (.dateEq col.name value), [])
  | .vlist l =>
    match l with
    | [x, y] => (q.filter (.dateBetween col.name x y), [])
    | _ => (q, [invalidFilterWarning col.name])
  | _ => (q.filter (.dateEq col.name value), [])

/-- `Queryable._apply_column_filter`: typed coercion with the whole body in
a try/except that logs and keeps the query unchanged on any coercion
error. -/
def applyColumnFilter (cfg : QConfig) (q : Query) (value : Val) (col : ColumnQ) :
    Query × List String :=
  match col.pyType with
  | .pybool =>
    match pyParseBool value with
    | .ok b => (q.filter (.eqBool col.name b), [])
    | .error _ => (q, [invalidFilterWarning col.name])
  | .pyint =>
    match pyInt value with
    | .ok n => (q.filter (.eqInt col.name n), [])
    | .error _ => (q, [invalidFilterWarning col.name])
  | .pyfloat =>
    if pyFloatOk value then (q.filter (.eqFloat col.name value), [])
    else (q, [invalidFilterWarning col.name])
  | .pystr =>
    if cfg.useLike then (q.filter (.icontains col.name value), [])
    else (q.filter (.eqRaw col.name value), [])
  | .pydatetime =>
    (applyDateFilter q value col)
  | .pydate =>
    (applyDateFilter q value col)
  | .pyother => (q.filter (.eqRaw col.name value), [])

/-- `Queryable._apply_json_filter`: dispatch `col[json_key]` to the
`of_<col>` scope when it exists and is callable, else leave the query
unchanged. -/
def applyJsonFilter (reg : RegistryQ) (m : ModelQ) (q : Query)
    (col jsonKey : String) (value : Val) : Query :=
  match getModelAttr reg m ("of_" ++ col) with
  | some (.scope f) => f q [.vstr jsonKey, value]
  | _ => q

/-- Whether a filter key uses the `col[json_key]` bracket syntax. -/
def isBracketKey (key : String) : Bool :=
  charMem '[' key.data && lastIs ']' key.data

/-- The `col` part of a bracket key (`key.split("[")[0]`). -/
def bracketCol (key : String) : String :=
  String.mk (takeUntilChar '[' key.data)

/-- The `json_key` part of a bracket key
(`key.split("[", 1)[1].removesuffix("]")`). -/
def bracketJsonKey (key : String) : String :=
  let rest := afterFirstChar '[' key.data
  String.mk (if lastIs ']' rest then rest.dropLast else rest)

/-- One iteration of the `query_by` loop, threading the query and the warning
log. -/
def queryByStep (cfg : QConfig) (reg : RegistryQ) (m : ModelQ)
    (acc : Query × List String) (kv : String × Val) : Query × List String :=
  let q := acc.1
  let logs := acc.2
  let key := kv.1
  let value := kv.2
  if isBracketKey key then
    (applyJsonFilter reg m q (bracketCol key) (bracketJsonKey key) value, logs)
  else
    match getModelAttr reg m ("of_" ++ key) with
    | some (.scope f) => (f q [value], logs)
    | _ =>
      match m.queryable with
      | some qlist =>
        if key ∈ qlist then
          match getModelAttr reg m key with
          | some (.instrumented (.columnP c)) =>
            let r := applyColumnFilter cfg q value c
            (r.1, logs ++ r.2)
          | _ => (q, logs)
        else (q, logs)
      | none => (q, logs)

/-- `Queryable.query_by`: returns the query unchanged when the model has no
`__queryable__` attribute, else folds the filters in order. -/
def queryBy (cfg : QConfig) (reg : RegistryQ) (m : ModelQ) (q : Query)
    (filters : List (String × Val)) : Query × List String :=
  match m.queryable with
  | none => (q, [])
  | some _ => filters.foldl (queryByStep cfg reg m) (q, [])

/-! ### Includes / eager loading -/

/-- An HTTP error raised to the client (`fastapi.HTTPException`). -/
structure HTTPError where
  status : Nat
  detail : String
deriving Repr, DecidableEq

/-- Target model lookup for relationship traversal (`attr.mapper.class_`);
a name missing from the registry resolves to an empty model so that every
further segment fails resolution (in Python the mapped class always
exists). -/
def modelFor (reg : RegistryQ) (name : String) : ModelQ :=
  match reg.lookup name with
  | some m => m
  | none => { name := name, attrs := [], polyMap := [], queryable := none }

/-- `Queryable._apply_join`: chain the next loader step, `selectinload` for
`uselist` relationships, `joinedload` otherwise. -/
def applyJoin (join : Option (List LoadStep)) (uselist : Bool) (rel : String) :
    List LoadStep :=
  let step := if uselist then LoadStep.selectin rel else LoadStep.joined rel
  match join with
  | none => [step]
  | some steps => steps ++ [step]

/-- `Queryable._join`: walk a dot-path segment list; a segment that does not
resolve to a relationship raises `HTTPException(422, ...)` unless `silent`.
An empty segment list would raise `IndexError` in Python (never reached from
`includes`, as `split` always yields at least one element). -/
def joinFn (reg : RegistryQ) (parent : ModelQ) (rels : List String)
    (join : Option (List LoadStep)) (silent : Bool) :
    Except HTTPError (Option (List LoadStep)) :=
  match rels with
  | [] => .error ⟨500, "IndexError"⟩
  | r :: rest =>
    match getModelAttr reg parent r with
    | some (.instrumented (.relationshipP target uselist)) =>
      let join2 := some (applyJoin join uselist r)
      if rest.isEmpty then .ok join2
      else joinFn reg (modelFor reg target) rest join2 silent
    | _ =>
      if silent then .ok join
      else .error ⟨422, "Invalid relationship " ++ r⟩

/-- The per-path loop body of `Queryable.includes`. -/
def includesGo (reg : RegistryQ) (m : ModelQ) (q : Query) :
    List String → Except HTTPError Query
  | [] => .ok q
  | rel :: rest =>
    match joinFn reg m (pySplitChar '.' rel) none false with
    | .error e => .error e
    | .ok none => includesGo reg m q rest
    | .ok (some steps) => includesGo reg m (q.options (.chain steps)) rest

/-- `Queryable.includes`: the wildcard applies `selectinload("*")` and
returns immediately; otherwise each dot-path is resolved by `_join`. -/
def includesFn (reg : RegistryQ) (m : ModelQ) (q : Query)
    (incl : List String) : Except HTTPError Query :=
  if "*" ∈ incl then .ok (q.options .star)
  else includesGo reg m q incl

/-! ### Statement vocabulary for the query DSL claims -/

/-- Whether `_get_model_attr` does not resolve `name` to a callable scope
(it may resolve it to an instrumented attribute or to nothing). -/
def noScope (reg : RegistryQ) (m : ModelQ) (name : String) : Prop :=
  ∀ f, getModelAttr reg m name ≠ some (.scope f)

/-- Whether the date/datetime coercion of `_apply_column_filter` raises
(wrong arity of a comma-range or of a list value). -/
def dateFails : Val → Bool
  | .vstr s => charMem ',' s.data && ((pySplitChar ',' s).length != 2)
  | .vlist l => l.length != 2
  | _ => false

/-- Whether the typed coercion of `_apply_column_filter` raises for this
value and column type (the branches of its try block that can throw). -/
def coerceFails (value : Val) (col : ColumnQ) : Bool :=
  match col.pyType with
  | .pybool => match pyParseBool value with | .ok _ => false | .error _ => true
  | .pyint => match pyInt value with | .ok _ => false | .error _ => true
  | .pyfloat => !pyFloatOk value
  | .pystr => false
  | .pydatetime => dateFails value
  | .pydate => dateFails value
  | .pyother => false

/-- Whether a path segment resolves to a declared relationship on the given
model, and, if so, the target model name and cardinality. -/
def relTarget (reg : RegistryQ) (m : ModelQ) (r : String) : Option (String × Bool) :=
  match getModelAttr reg m r with
  | some (.instrumented (.relationshipP t u)) => some (t, u)
  | _ => none

/-- The first segment of a dot-path (already split) that does not resolve to
a relationship while walking the chain from the given model. -/
def firstBadSeg (reg : RegistryQ) (m : ModelQ) : List String → Option String
  | [] => none
  | r :: rest =>
    match relTarget reg m r with
    | none => some r
    | some (t, _) => firstBadSeg reg (modelFor reg t) rest

/-- Modelled from the spec: the attribute-resolver lookup order as sections
4.1 of the spec states it — the key verbatim on the model, then the
snake_case conversion on the model, then (only if still absent and the
model is a polymorphic base) the registered subtypes.  Used to compare the
spec's stated order with the implemented one. -/
def getModelAttrSpecOrder (reg : RegistryQ) (m : ModelQ) (key : String) : Option Attr :=
  match getAttrRaw m key with
  | some a => some a
  | none =>
    match getAttrRaw m (underscore key) with
    | some a => some a
    | none =>
      if m.polyMap.isEmpty then none
      else
        match polyProbe reg m.polyMap key with
        | some a => some a
        | none => polyProbe reg m.polyMap (underscore key)

/-! ### Sample models used by witnesses and counterexamples -/

/-- A concrete scope function used in witnesses: records the scope call on
the query. -/
def sampleScope (name : String) : Query → List Val → Query :=
  fun q args => Query.scoped q name args

/-- Sample `Tag` model: no relationships. -/
def tagModel : ModelQ :=
  { name := "Tag"
    attrs := [("id", .instrumented (.columnP ⟨"id", .pyint⟩)),
              ("name", .instrumented (.columnP ⟨"name", .pystr⟩))]
    polyMap := []
    queryable := some ["id", "name"] }

/-- Sample `Message` model with a `tags` relationship. -/
def messageModel : ModelQ :=
  { name := "Message"
    attrs := [("id", .instrumented (.columnP ⟨"id", .pyint⟩)),
              ("text", .instrumented (.columnP ⟨"text", .pystr⟩)),
              ("tags", .instrumented (.relationshipP "Tag" true))]
    polyMap := []
    queryable := some ["id", "text"] }

/-- Sample `Post` model: columns, a collection relationship, a to-one
relationship, and an `of_message_text` scope. -/
def postModel : ModelQ :=
  { name := "Post"
    attrs := [("id", .instrumented (.columnP ⟨"id", .pyint⟩)),
              ("title", .instrumented (.columnP ⟨"title", .pystr⟩)),
              ("score", .instrumented (.columnP ⟨"score", .pyfloat⟩)),
              ("published", .instrumented (.columnP ⟨"published", .pybool⟩)),
              ("created_at", .instrumented (.columnP ⟨"created_at", .pydatetime⟩)),
              ("messages", .instrumented (.relationshipP "Message" true)),
              ("author", .instrumented (.relationshipP "Author" false)),
              ("of_message_text", .scope (sampleScope "of_message_text"))]
    polyMap := []
    queryable := some ["id", "title", "score", "published", "created_at"] }

/-- Sample `Author` model. -/
def authorModel : ModelQ :=
  { name := "Author"
    attrs := [("id", .instrumented (.columnP ⟨"id", .pyint⟩))]
    polyMap := []
    queryable := none }

/-- Sample registry for the query DSL witnesses. -/
def sampleReg : RegistryQ :=
  [("Post", postModel), ("Message", messageModel), ("Tag", tagModel),
   ("Author", authorModel)]

/-- The attribute sitting on the polymorphic base under the snake_case
name. -/
def baseSnakeAttr : Attr := .instrumented (.columnP ⟨"foo_bar", .pystr⟩)

/-- The attribute sitting on the polymorphic subtype under the verbatim
camelCase name. -/
def subCamelAttr : Attr := .instrumented (.columnP ⟨"fooBar", .pyint⟩)

/-- Polymorphic base model owning only the snake_case attribute. -/
def polyBaseModel : ModelQ :=
  { name := "B"
    attrs := [("foo_bar", baseSnakeAttr)]
    polyMap := ["S"]
    queryable := none }

/-- Polymorphic subtype owning the verbatim camelCase attribute. -/
def polySubModel : ModelQ :=
  { name := "S"
    attrs := [("fooBar", subCamelAttr)]
    polyMap := []
    queryable := none }

/-- Registry for the polymorphic resolution counterexample. -/
def polyReg : RegistryQ := [("B", polyBaseModel), ("S", polySubModel)]

/-- Observable discriminator on attributes (column name if any), used to
tell two resolved attributes apart. -/
def attrColName : Attr → Option String
  | .instrumented (.columnP c) => some c.name
  | _ => none

/-! ## Schema synthesis (`fastapi_solo/serialization/schema_models.py`)

The `SymList` union type (`Dict[str, Any] | Set[str] | Tuple | List`) is
embedded as an inductive: dictionaries as association lists (Python insert
semantics via `pyInsert`), collections as element lists.  Dictionary values
are booleans, type objects (for `extras`), or nested `SymList`s.  The md5
truncation of the canonical encoding is modelled by the encoding string
itself: equal encodings give equal digests, and no claim needs a digest
collision.  The process-global `__schema_cache` is threaded explicitly, and
Python's unbounded recursion over the (finite, acyclic) spec structure is
modelled with a fuel parameter that exceeds any spec's depth. -/

/-- Type objects appearing as `extras` values. -/
inductive ETy where
  | estr
  | eint
  | ebool
  | efloat
  | eOpt : ETy → ETy
  | eOther
deriving Repr, DecidableEq

mutual
/-- The `SymList` union: `Dict[str, Any] | Set[str] | Tuple | List`, plus
the leaf values (booleans and types) that occur as dictionary values. -/
inductive SymList where
  | b : Bool → SymList
  | ty : ETy → SymList
  | dict : List (String × SymList) → SymList
  | coll : List SymElem → SymList
/-- An element of a set/tuple/list spelling: a string or a nested
`SymList`. -/
inductive SymElem where
  | s : String → SymElem
  | sub : SymList → SymElem
end

/-- Python dictionary assignment `d[k] = v`: overwrite in place (keeping the
key's position) or append. -/
def pyInsert {α : Type} : List (String × α) → String → α → List (String × α)
  | [], k, v => [(k, v)]
  | (k2, v2) :: rest, k, v =>
    if k2 == k then (k2, v) :: rest else (k2, v2) :: pyInsert rest k v

/-- The entry list of a dictionary value (empty for non-dicts). -/
def entriesOf : SymList → List (String × SymList)
  | .dict l => l
  | _ => []

/-- Python truthiness of a `SymList` value. -/
def symTruthy : SymList → Bool
  | .b x => x
  | .ty _ => true
  | .dict l => !l.isEmpty
  | .coll l => !l.isEmpty

/-- `isinstance(v, (dict, set, tuple, list))`. -/
def isDictColl : SymList → Bool
  | .dict _ => true
  | .coll _ => true
  | _ => false

/-- `isinstance(v, dict)`. -/
def isDictSym : SymList → Bool
  | .dict _ => true
  | _ => false

/-- Python `k in v` for a dictionary or collection value. -/
def symHasKey (v : SymList) (k : String) : Bool :=
  match v with
  | .dict l => (l.map Prod.fst).contains k
  | .coll l => l.any (fun e => match e with | .s s2 => s2 == k | .sub _ => false)
  | _ => false

/-- `v.get(k)` for a dictionary value. -/
def symGet (v : SymList) (k : String) : Option SymList :=
  match v with
  | .dict l => l.lookup k
  | _ => none

mutual
/-- `_normalize_sym_list`: collections flatten to dictionaries mapping
their string elements to `True` and merging their nested members;
dictionary values are normalized recursively; leaves pass through. -/
def normalizeSym : SymList → SymList
  | .dict l => .dict (normalizeEntries l)
  | .coll l => .dict (flattenGo [] l)
  | s => s
/-- Value-wise normalization of a dictionary's entries (`_normalize_sym_list`
only rewrites dict/coll values; `normalizeSym` is the identity on the other
values, so it is applied uniformly). -/
def normalizeEntries : List (String × SymList) → List (String × SymList)
  | [] => []
  | (k, v) :: rest => (k, normalizeSym v) :: normalizeEntries rest
/-- `_flatten_sym_list`: fold the elements into a fresh dictionary
(`base[k] = True` for strings, `base.update(_normalize_sym_list(k))` for
nested members; updating with a non-dict would raise in Python and is
modelled as a no-op). -/
def flattenGo (base : List (String × SymList)) : List SymElem → List (String × SymList)
  | [] => base
  | .s k :: rest => flattenGo (pyInsert base k (.b true)) rest
  | .sub s :: rest =>
    flattenGo
      (match normalizeSym s with
       | .dict es => es.foldl (fun b kv => pyInsert b kv.1 kv.2) base
       | _ => base) rest
end

/-- Strict lexicographic comparison of char lists by code point. -/
def lexLt : List Char → List Char → Bool
  | [], [] => false
  | [], _ :: _ => true
  | _ :: _, [] => false
  | a :: as, b :: bs =>
    if a.toNat < b.toNat then true
    else if b.toNat < a.toNat then false
    else lexLt as bs

/-- Keep the first occurrence of each key (Python dictionaries cannot have
duplicate keys; the guard makes the embedding total on raw lists). -/
def dedupByKeyAux {α : Type} (seen : List String) : List (String × α) → List (String × α)
  | [] => []
  | (k, v) :: rest =>
    if seen.contains k then dedupByKeyAux seen rest
    else (k, v) :: dedupByKeyAux (k :: seen) rest

def dedupByKey {α : Type} (l : List (String × α)) : List (String × α) :=
  dedupByKeyAux [] l

/-- Insertion into a key-sorted pair list. -/
def insertPair (p : String × String) : List (String × String) → List (String × String)
  | [] => [p]
  | q :: rest =>
    if lexLe p.1.data q.1.data then p :: q :: rest else q :: insertPair p rest

/-- Sort a pair list by key (Python `sorted` over the dictionary's keys). -/
def sortPairsByKey : List (String × String) → List (String × String)
  | [] => []
  | p :: rest => insertPair p (sortPairsByKey rest)

/-- Insertion into a sorted string list. -/
def insertStr (s : String) : List String → List String
  | [] => [s]
  | t :: rest => if lexLe s.data t.data then s :: t :: rest else t :: insertStr s rest

/-- Sort a string list (Python `sorted` over a set/list of strings). -/
def sortStrings : List String → List String
  | [] => []
  | s :: rest => insertStr s (sortStrings rest)

/-- Python `sep.join(parts)`. -/
def joinSep (sep : String) : List String → String
  | [] => ""
  | [x] => x
  | x :: y :: rest => x ++ sep ++ joinSep sep (y :: rest)

/-- String elements of a collection (a non-string element would make
Python's `sorted` raise; unreachable after normalization). -/
def collStrings : List SymElem → List String
  | [] => []
  | .s x :: rest => x :: collStrings rest
  | .sub _ :: rest => collStrings rest

mutual
/-- `_qs_dict`: the canonical token encoding — for a dictionary, its keys
sorted, each rendered as `key` or `key[nested]` depending on its value; for
a collection of strings, the sorted elements. -/
def qsDict : SymList → String
  | .dict l =>
    joinSep "," ((sortPairsByKey (dedupByKey (qsEntries l))).map Prod.snd)
  | .coll l => joinSep "," (sortStrings (collStrings l))
  | .b _ => ""
  | .ty _ => ""
/-- Per-entry token of `_qs_dict` (`key` or `key[nested]`), keyed for
sorting. -/
def qsEntries : List (String × SymList) → List (String × String)
  | [] => []
  | (k, v) :: rest =>
    (k, if isDictColl v then k ++ "[" ++ qsDict v ++ "]" else k) :: qsEntries rest
end

/-- The flag suffix of the `_qs` encoding. -/
def qsFlags (allOptional includeVirtuals useDyn : Bool) : String :=
  (if allOptional then "?" else "") ++
  (if includeVirtuals then "*" else "") ++
  (if !useDyn then "!" else "")

/-- `_qs`: the cache key — model name plus the canonical encoding of the
spec (the Python code md5-hashes the encoding to 8 hex chars; the digest is
a deterministic function of the encoding, so the key is modelled by the
encoding itself). -/
def qs (modelName : String) (exclude inc relationships extras : SymList)
    (allOptional includeVirtuals useDyn : Bool) : String :=
  let enc :=
    (if symTruthy exclude then "-(" ++ qsDict exclude ++ ")" else "") ++
    (if symTruthy inc then "+(" ++ qsDict inc ++ ")" else "") ++
    (if symTruthy relationships then "&(" ++ qsDict relationships ++ ")" else "") ++
    (if symTruthy extras then "!(" ++ qsDict extras ++ ")" else "") ++
    qsFlags allOptional includeVirtuals useDyn
  modelName ++ "$" ++ enc

/-! ### Models and compiled schemas -/

/-- A column as seen by `_build_fields`: name, `python_type`, nullability
and default presence. -/
structure ColumnS where
  name : String
  pyType : PyType
  nullable : Bool
  hasDefault : Bool
deriving Repr, DecidableEq

/-- A declared relationship: target model name and cardinality. -/
structure RelS where
  target : String
  uselist : Bool
deriving Repr, DecidableEq

/-- A mapped model as the schema engine sees it: columns, readable virtual
properties (with their resolved type), and relationships. -/
structure ModelS where
  name : String
  columns : List ColumnS
  virtuals : List (String × PyType)
  relationships : List (String × RelS)
deriving Repr, DecidableEq

/-- The model class registry (`Base.get_model`). -/
abbrev RegistryS := List (String × ModelS)

/-- An unregistered name yields an empty model carrying that name (Python
raises `DbException` there; no claim exercises it). -/
def modelSFor (reg : RegistryS) (name : String) : ModelS :=
  (reg.lookup name).getD ⟨name, [], [], []⟩

mutual
/-- A Python type object produced by the schema engine: a compiled schema
class, the `Lazy`/`HasOne`/`HasMany`/`Optional`/`List` wrappers, a column's
`python_type`, an `extras` type entry, or the fuel sentinel of the
recursion model (unreachable for adequate fuel). -/
inductive TyObj where
  | schemaRef : Schema → TyObj
  | lazyW : TyObj → TyObj
  | hasManyW : TyObj → TyObj
  | hasOneW : TyObj → TyObj
  | optionalW : TyObj → TyObj
  | listW : TyObj → TyObj
  | pyW : PyType → TyObj
  | etyW : ETy → TyObj
  | fuelExhausted : TyObj
/-- A compiled schema: its class name and its field table
(name, type, required flag). -/
inductive Schema where
  | mk : String → List (String × TyObj × Bool) → Schema
end

def Schema.sname : Schema → String
  | .mk n _ => n

def Schema.fields : Schema → List (String × TyObj × Bool)
  | .mk _ f => f

/-- The process-wide `__schema_cache`, threaded explicitly. -/
abbrev Cache := List (String × Schema)

/-- `FastapiSoloConfig.include_first_level_relationships`. -/
def includeFirstLevelRelationships : Bool := false

/-- `_is_optional` on an extras type entry. -/
def isOptionalETy : ETy → Bool
  | .eOpt _ => true
  | _ => false

/-- `_build_fields`: one schema field per column, honouring the exclude
blacklist, the include whitelist, the password safety default, and
optionality from `all_optional`/nullability/default. -/
def buildFieldsStep (exclude inc : SymList) (allOptional : Bool)
    (fields : List (String × TyObj × Bool)) (c : ColumnS) :
    List (String × TyObj × Bool) :=
  if symHasKey exclude c.name then fields
  else if symTruthy inc && !(symHasKey inc c.name) then fields
  else if strHasSub "password" c.name &&
      !(symHasKey (if symTruthy inc then inc else .dict []) c.name) then fields
  else if allOptional || c.nullable || c.hasDefault then
    pyInsert fields c.name (TyObj.optionalW (.pyW c.pyType), false)
  else pyInsert fields c.name (TyObj.pyW c.pyType, true)

def buildFields (model : ModelS) (exclude inc : SymList) (allOptional : Bool) :
    List (String × TyObj × Bool) :=
  model.columns.foldl (buildFieldsStep exclude inc allOptional) []

/-- `_build_virtual_fields`: every readable property not excluded (and
whitelisted when an include list is given), always optional. -/
def buildVirtualStep (exclude inc : SymList)
    (fs : List (String × TyObj × Bool)) (pv : String × PyType) :
    List (String × TyObj × Bool) :=
  if symHasKey exclude pv.1 then fs
  else if symTruthy inc && !(symHasKey inc pv.1) then fs
  else pyInsert fs pv.1 (TyObj.optionalW (.pyW pv.2), false)

def buildVirtualFields (fields : List (String × TyObj × Bool)) (model : ModelS)
    (exclude inc : SymList) : List (String × TyObj × Bool) :=
  model.virtuals.foldl (buildVirtualStep exclude inc) fields

/-- The extras entries merged into the compiled model: non-dict values only,
optional unless `all_optional` is off and the type is not itself optional.
A non-type leaf value (a bare `True` from a set spelling) would be a bogus
annotation in Python and is recorded as an opaque type. -/
def extrasStep (allOptional : Bool) (fs : List (String × TyObj × Bool))
    (kv : String × SymList) : List (String × TyObj × Bool) :=
  match kv.2 with
  | .dict _ => fs
  | .ty t => pyInsert fs kv.1 (TyObj.etyW t, !(allOptional || isOptionalETy t))
  | _ => pyInsert fs kv.1 (TyObj.etyW .eOther, !allOptional)

def extrasFields (extras : SymList) (allOptional : Bool) :
    List (String × TyObj × Bool) :=
  (entriesOf extras).foldl (extrasStep allOptional) []

/-- `_build_relationship`: silently skip a key with no declared
relationship; otherwise slice the nested exclude/include/relationships/
extras by the key and recurse (through `recurse`, which the caller ties to
the schema generator at one less fuel), wrapping the nested schema by
cardinality and the dynamic-relationships flag. -/
def buildRelationship
    (recurse : String → SymList → SymList → SymList → SymList → Bool → Bool →
      Cache → TyObj × Cache)
    (model : ModelS) (relKey : String)
    (exclude inc relationships extras : SymList)
    (allOptional includeVirtuals useDyn : Bool)
    (acc : List (String × TyObj × Bool) × Cache) :
    List (String × TyObj × Bool) × Cache :=
  match model.relationships.lookup relKey with
  | none => acc
  | some rel =>
    let e := if symTruthy exclude && isDictSym exclude then
        (symGet exclude relKey).getD (.dict []) else .dict []
    let i := if symTruthy inc && isDictSym inc then
        (symGet inc relKey).getD (.dict []) else .dict []
    let r := if isDictSym relationships then
        match symGet relationships relKey with
        | some v => if isDictColl v then v else .dict []
        | none => .dict []
      else .dict []
    let x := match symGet extras relKey with
      | some v => if symTruthy v && isDictSym v then v else .dict []
      | none => .dict []
    let res := recurse rel.target e i r x allOptional includeVirtuals acc.2
    let wrapped :=
      if rel.uselist then
        if useDyn then TyObj.hasManyW res.1 else TyObj.optionalW (.listW res.1)
      else
        if useDyn then TyObj.hasOneW res.1 else TyObj.optionalW res.1
    (pyInsert acc.1 relKey (wrapped, false), res.2)

/-- One `**`-merge step of `create_model`: a later field of the same name
overwrites an earlier one. -/
def mergeStep (fs : List (String × TyObj × Bool)) (kv : String × TyObj × Bool) :
    List (String × TyObj × Bool) :=
  pyInsert fs kv.1 kv.2

/-- `_custom_schema`: scalar fields, then virtual fields, then one
relationship field per `relationships` key, then extras; `create_model`
merges them in that order under the `base_name or name` class name. -/
def customSchema
    (recurse : String → SymList → SymList → SymList → SymList → Bool → Bool →
      Cache → TyObj × Cache)
    (model : ModelS)
    (exclude inc relationships extras : SymList)
    (allOptional includeVirtuals useDyn : Bool)
    (name : String) (baseName : Option String) (cache : Cache) :
    Schema × Cache :=
  let fields0 := buildFields model exclude inc allOptional
  let fields1 := if includeVirtuals then
      buildVirtualFields fields0 model exclude inc else fields0
  let relRes := (entriesOf relationships).foldl
    (fun acc kv =>
      buildRelationship recurse model kv.1 exclude inc relationships extras
        allOptional includeVirtuals useDyn acc)
    ([], cache)
  let xfs := extrasFields extras allOptional
  let merged1 := relRes.1.foldl mergeStep fields1
  let merged2 := xfs.foldl mergeStep merged1
  (Schema.mk (baseName.getD name) merged2, relRes.2)

/-- `_generate_schema`: a nonempty include list rebuilds `relationships`
from its dict-valued entries; the cache key is computed by `_qs`; a hit
returns the cached schema, a miss compiles and caches it; the result is
wrapped in `Lazy` when `lazy_first_level` (defaulted from the configuration)
is set.  Nested compilations recurse with the default
`use_dynamic_relationships=True`, `lazy_first_level=None`,
`base_name=None`. -/
def generateSchema (fuel : Nat) (reg : RegistryS) (modelName : String)
    (exclude inc relationships extras : SymList)
    (allOptional includeVirtuals useDyn : Bool)
    (lazyFirstLevel : Option Bool) (baseName : Option String)
    (cache : Cache) : TyObj × Cache :=
  match fuel with
  | 0 => (.fuelExhausted, cache)
  | fuel2 + 1 =>
    let lazyFL := lazyFirstLevel.getD (!includeFirstLevelRelationships)
    let relationships2 := if symTruthy inc then
        SymList.dict ((entriesOf inc).filter (fun kv => isDictColl kv.2))
      else relationships
    let model := modelSFor reg modelName
    let name := qs model.name exclude inc relationships2 extras allOptional
      includeVirtuals useDyn
    match cache.lookup name with
    | some s => (if lazyFL then TyObj.lazyW (.schemaRef s) else .schemaRef s, cache)
    | none =>
      let res := customSchema
        (fun n e i r x a v c =>
          generateSchema fuel2 reg n e i r x a v true none none c)
        model exclude inc relationships2 extras allOptional includeVirtuals
        useDyn name baseName cache
      (if lazyFL then TyObj.lazyW (.schemaRef res.1) else .schemaRef res.1,
        pyInsert res.2 name res.1)

/-- `_generic_schema`: normalize the four spec components, optionally
auto-include every declared relationship, and generate. -/
def genericSchema (fuel : Nat) (reg : RegistryS) (modelName : String)
    (exclude inc relationships extras : SymList)
    (allOptional includeVirtuals useDyn : Bool)
    (lazyFirstLevel : Option Bool) (baseName : Option String)
    (autoIncludeRelationships : Bool) (cache : Cache) : TyObj × Cache :=
  let e := normalizeSym exclude
  let i := normalizeSym inc
  let r0 := normalizeSym relationships
  let x := normalizeSym extras
  let r := if autoIncludeRelationships then
      (modelSFor reg modelName).relationships.foldl
        (fun rr kv =>
          if symHasKey rr kv.1 then rr
          else SymList.dict (pyInsert (entriesOf rr) kv.1 (.b true)))
        r0
    else r0
  generateSchema fuel reg modelName e i r x allOptional includeVirtuals useDyn
    lazyFirstLevel baseName cache

/-- `response_schema` with its defaults (`all_optional=True`,
`include_virtuals=True`, `use_dynamic_relationships=True`). -/
def responseSchema (fuel : Nat) (reg : RegistryS) (modelName : String)
    (exclude inc relationships extras : SymList)
    (lazyFirstLevel : Option Bool) (cache : Cache) : TyObj × Cache :=
  genericSchema fuel reg modelName exclude inc relationships extras true true
    true lazyFirstLevel none false cache

/-- The cache key computed inside `generateSchema` for the given raw
arguments. -/
def generateName (reg : RegistryS) (modelName : String)
    (exclude inc relationships extras : SymList)
    (allOptional includeVirtuals useDyn : Bool) : String :=
  let relationships2 := if symTruthy inc then
      SymList.dict ((entriesOf inc).filter (fun kv => isDictColl kv.2))
    else relationships
  qs (modelSFor reg modelName).name exclude inc relationships2 extras
    allOptional includeVirtuals useDyn

/-- The cache key computed by `genericSchema` (without auto-included
relationships): the canonical key of the normalized spec. -/
def genericName (reg : RegistryS) (modelName : String)
    (exclude inc relationships extras : SymList)
    (allOptional includeVirtuals useDyn : Bool) : String :=
  generateName reg modelName (normalizeSym exclude) (normalizeSym inc)
    (normalizeSym relationships) (normalizeSym extras) allOptional
    includeVirtuals useDyn

/-- The two canonically-ordered spec components compared by the C4 claim:
syntactically equal, or both dictionaries whose entry lists are permutations
of one another with duplicate-free keys (Python dictionaries cannot repeat
keys; the entries carry equal values). -/
def PermEqD (a b : SymList) : Prop :=
  a = b ∨ ∃ l1 l2, a = .dict l1 ∧ b = .dict l2 ∧
    (l1.map Prod.fst).Nodup ∧ l1.Perm l2

/-- Field lookup on a compiled schema. -/
def schemaFieldOf (s : Schema) (n : String) : Option (TyObj × Bool) :=
  s.fields.lookup n

/-- The extras type carried by a schema field, if it is one. -/
def etyOf : TyObj → Option ETy
  | .etyW t => some t
  | _ => none

/-- Sample model for the schema-cache claims: a single integer primary
key. -/
def mModelS : ModelS := ⟨"M", [⟨"id", .pyint, false, false⟩], [], []⟩

/-- Sample registry for the schema-cache claims. -/
def mRegS : RegistryS := [("M", mModelS)]

/-- Sample model owning a `password_hash` column. -/
def userModelS : ModelS :=
  ⟨"User", [⟨"id", .pyint, false, false⟩, ⟨"name", .pystr, true, false⟩,
    ⟨"password_hash", .pystr, true, false⟩], [], []⟩

/-- Sample registry for the password-exclusion witness. -/
def userRegS : RegistryS := [("User", userModelS)]

/-! ## Claim theorems and witnesses -/

/-- C1: on exit of a `Transaction` scope, if the force-rollback flag was set
or an exception propagated out of the scope, the transaction is rolled back
and the exception re-propagates unchanged (`__exit__` returns `False`, never
swallowing it); otherwise the transaction is committed; and if the handle is
no longer active at exit time (closed manually outside the manager), a
warning is logged and the exit neither raises nor commits nor touches the
handle again. -/
theorem C1_transaction_exit_protocol (st : TransactionState) (exc : Bool) :
    (exc = true → (txExit st exc).suppress = false) ∧
    (∀ h, st.tx = some h → h.isActive = true →
      ((st.forceRollback = true ∨ exc = true) →
        (txExit st exc).action = .rolledBack ∧ (txExit st exc).suppress = false) ∧
      (st.forceRollback = false → exc = false →
        (txExit st exc).action = .committed)) ∧
    ((st.tx = none ∨ ∃ h, st.tx = some h ∧ h.isActive = false) →
      (txExit st exc).warned = true ∧ (txExit st exc).action = .noop ∧
        (txExit st exc).suppress = false) := by
  obtain ⟨tx, fr⟩ := st
  cases tx with
  | none =>
    refine ⟨fun _ => rfl, fun h hh => by simp at hh, fun _ => ⟨rfl, rfl, rfl⟩⟩
  | some h =>
    obtain ⟨a⟩ := h
    cases a <;> cases fr <;> cases exc <;>
      exact ⟨fun he => by simp_all [txExit],
        fun h2 hh2 ha => by
          injection hh2 with h3
          subst h3
          simp_all [txExit],
        fun hin => by
          rcases hin with h4 | ⟨hh, heq, hact⟩
          · simp at h4
          · injection heq with h5
            subst h5
            simp_all [txExit]⟩

/-- Witness for C1 at concrete inputs: an active handle with an exception
pending rolls back and does not suppress; an inactive handle warns. -/
theorem C1_transaction_exit_protocol_witness :
    (txExit ⟨some ⟨true⟩, false⟩ true).action = .rolledBack ∧
    (txExit ⟨some ⟨true⟩, false⟩ true).suppress = false ∧
    (txExit ⟨some ⟨false⟩, false⟩ false).warned = true := by
  refine ⟨((C1_transaction_exit_protocol ⟨some ⟨true⟩, false⟩ true).2.1 ⟨true⟩ rfl rfl).1
      (Or.inr rfl) |>.1,
    (C1_transaction_exit_protocol ⟨some ⟨true⟩, false⟩ true).1 rfl,
    ((C1_transaction_exit_protocol ⟨some ⟨false⟩, false⟩ false).2.2
      (Or.inr ⟨⟨false⟩, rfl, rfl⟩)).1⟩

/-- C5: the pagination meta satisfies `totalPages = total / pageSize` plus
one exactly when `total % pageSize` is nonzero, `nextPage = page + 1` iff
`page < totalPages` (else null), `previousPage = page - 1` iff `page > 1`
(else null); and the concrete `total=10, pageSize=3` cases come out as the
spec lists them. -/
theorem C5_pagination_meta (count page size : Nat) (_hs : 0 < size) :
    ((paginateMeta count page size).totalPages =
        count / size + (if count % size ≠ 0 then 1 else 0)) ∧
    ((paginateMeta count page size).nextPage =
        if page < (paginateMeta count page size).totalPages then some (page + 1)
        else none) ∧
    ((paginateMeta count page size).previousPage =
        if 1 < page then some (page - 1) else none) ∧
    (paginateMeta 10 1 3).totalPages = 4 ∧
    (paginateMeta 10 1 3).nextPage = some 2 ∧
    (paginateMeta 10 1 3).previousPage = none ∧
    (paginateMeta 10 4 3).nextPage = none ∧
    (paginateMeta 10 4 3).previousPage = some 3 ∧
    (paginateMeta 10 5 3).nextPage = none ∧
    (paginateMeta 10 5 3).previousPage = some 4 := by
  refine ⟨?_, ?_, ?_, by decide, by decide, by decide, by decide, by decide,
    by decide, by decide⟩
  · by_cases h : count % size = 0 <;> simp [paginateMeta, h]
  · rfl
  · rfl

/-- Witness for C5 at `total = 10`, `page = 1`, `size = 3`. -/
theorem C5_pagination_meta_witness :
    (0 < 3 ∧ (paginateMeta 10 1 3).totalPages = 10 / 3 + 1) ∧
    (paginateMeta 10 1 3).nextPage = some 2 := by
  have h := C5_pagination_meta 10 1 3 (by decide)
  exact ⟨⟨by decide, by simpa using h.1⟩, h.2.2.2.2.1⟩

/-- C9: a wildcard anywhere in the include list short-circuits `includes`
into the single non-recursive eager-load-everything directive, ignoring and
never validating every other path in the list. -/
theorem C9_includes_wildcard (reg : RegistryQ) (m : ModelQ) (q : Query)
    (incl : List String) (h : "*" ∈ incl) :
    includesFn reg m q incl = .ok (q.options .star) := by
  simp [includesFn, h]

/-- Witness for C9: an unresolvable path next to the wildcard does not raise
the 422 error it raises on its own. -/
theorem C9_includes_wildcard_witness :
    ("*" ∈ ["doesNotExist", "*"]) ∧
    includesFn sampleReg postModel (.base "Post") ["doesNotExist", "*"] =
      .ok ((Query.base "Post").options .star) ∧
    includesFn sampleReg postModel (.base "Post") ["doesNotExist"] =
      .error ⟨422, "Invalid relationship doesNotExist"⟩ := by
  refine ⟨by decide, C9_includes_wildcard _ _ _ _ (by decide), rfl⟩

/-- C6: a filter key with a callable `of_<key>` scope on the model (found
verbatim, via snake_case conversion, or on a registered polymorphic
subtype — all three paths are inside `getModelAttr`) is dispatched as
`scope(query, value)`, whose return value becomes the new query. -/
theorem C6_scope_dispatch (cfg : QConfig) (reg : RegistryQ) (m : ModelQ)
    (q : Query) (key : String) (value : Val) (f : Query → List Val → Query)
    (hb : isBracketKey key = false)
    (hf : getModelAttr reg m ("of_" ++ key) = some (.scope f)) :
    (∀ acc, queryByStep cfg reg m acc (key, value) = (f acc.1 [value], acc.2)) ∧
    (∀ ql, m.queryable = some ql →
      queryBy cfg reg m q [(key, value)] = (f q [value], [])) := by
  constructor
  · intro acc
    simp [queryByStep, hb, hf]
  · intro ql hql
    simp [queryBy, hql, queryByStep, hb, hf]

/-- Witness for C6: the key `messageText` reaches the `of_message_text`
scope through the snake_case conversion, and the scope's result is the new
query. -/
theorem C6_scope_dispatch_witness :
    isBracketKey "messageText" = false ∧
    queryBy ⟨false⟩ sampleReg postModel (.base "Post")
        [("messageText", .vstr "world")] =
      (Query.scoped (.base "Post") "of_message_text" [.vstr "world"], []) := by
  refine ⟨by decide, ?_⟩
  have h := C6_scope_dispatch ⟨false⟩ sampleReg postModel (.base "Post")
    "messageText" (.vstr "world") (sampleScope "of_message_text") (by decide) rfl
  exact h.2 _ rfl

/-- Counterexample to C7 as stated: on a polymorphic base owning `foo_bar`
whose subtype owns `fooBar`, resolving `fooBar` returns the subtype's
verbatim attribute, while the spec's order (snake_case retry before the
subtype probe) would return the base's `foo_bar` attribute. -/
theorem C7_resolver_order_counterexample :
    getModelAttr polyReg polyBaseModel "fooBar" = some subCamelAttr ∧
    getModelAttrSpecOrder polyReg polyBaseModel "fooBar" = some baseSnakeAttr ∧
    (some subCamelAttr : Option Attr) ≠ some baseSnakeAttr := by
  refine ⟨rfl, rfl, fun h => ?_⟩
  exact absurd (congrArg attrColName (Option.some.inj h)) (by decide)

/-- C7 (amended): the resolver tries the key verbatim on the model, then —
still with the verbatim key — the registered polymorphic subtypes, then the
snake_case conversion on the model, then the subtypes with the converted
key; when nothing matches it returns the falsy sentinel, never raising. -/
theorem C7_resolver_order_amended (reg : RegistryQ) (m : ModelQ) (key : String) :
    (∀ a, getAttrRaw m key = some a → getModelAttr reg m key = some a) ∧
    (getAttrRaw m key = none → ∀ a,
      (if m.polyMap.isEmpty then none else polyProbe reg m.polyMap key) = some a →
      getModelAttr reg m key = some a) ∧
    (getModelAttrK reg m key = none → ∀ a,
      getAttrRaw m (underscore key) = some a → getModelAttr reg m key = some a) ∧
    (getModelAttrK reg m key = none → getAttrRaw m (underscore key) = none →
      getModelAttr reg m key =
        (if m.polyMap.isEmpty then none
         else polyProbe reg m.polyMap (underscore key))) ∧
    (getModelAttrK reg m key = none → getModelAttrK reg m (underscore key) = none →
      getModelAttr reg m key = none) := by
  refine ⟨?_, ?_, ?_, ?_, ?_⟩
  · intro a h
    have hk : getModelAttrK reg m key = some a := by
      unfold getModelAttrK
      rw [h]
    simp [getModelAttr, hk]
  · intro h a h2
    have hk : getModelAttrK reg m key = some a := by
      unfold getModelAttrK
      rw [h]
      exact h2
    simp [getModelAttr, hk]
  · intro h a h2
    have hk2 : getModelAttrK reg m (underscore key) = some a := by
      unfold getModelAttrK
      rw [h2]
    simp [getModelAttr, h, hk2]
  · intro h h2
    have hk2 : getModelAttrK reg m (underscore key) =
        (if m.polyMap.isEmpty then none
         else polyProbe reg m.polyMap (underscore key)) := by
      unfold getModelAttrK
      rw [h2]
    rw [getModelAttr, h, hk2]
  · intro h h2
    simp [getModelAttr, h, h2]

/-- Witness for C7 (amended): verbatim hit on the subtype model, and the
falsy sentinel on a key absent everywhere. -/
theorem C7_resolver_order_amended_witness :
    getModelAttr polyReg polySubModel "fooBar" = some subCamelAttr ∧
    getModelAttr sampleReg tagModel "zzz" = none := by
  refine ⟨(C7_resolver_order_amended polyReg polySubModel "fooBar").1 _ rfl,
    (C7_resolver_order_amended sampleReg tagModel "zzz").2.2.2.2 rfl rfl⟩

/-- A failing coercion is caught: `_apply_column_filter` leaves the query
unchanged and logs the warning. -/
theorem applyDateFilter_of_fails (q : Query) (value : Val) (col : ColumnQ)
    (h : dateFails value = true) :
    applyDateFilter q value col = (q, [invalidFilterWarning col.name]) := by
  cases value with
  | vstr s =>
    simp only [dateFails, Bool.and_eq_true] at h
    obtain ⟨h1, h2⟩ := h
    cases hsp : pySplitChar ',' s with
    | nil => simp [applyDateFilter, h1, hsp]
    | cons x rest =>
      cases rest with
      | nil => simp [applyDateFilter, h1, hsp]
      | cons y rest2 =>
        cases rest2 with
        | nil =>
          rw [hsp] at h2
          simp at h2
        | cons z rest3 => simp [applyDateFilter, h1, hsp]
  | vlist l =>
    simp only [dateFails] at h
    cases l with
    | nil => simp [applyDateFilter]
    | cons x rest =>
      cases rest with
      | nil => simp [applyDateFilter]
      | cons y rest2 =>
        cases rest2 with
        | nil => simp at h
        | cons z rest3 => simp [applyDateFilter]
  | vnone => simp [dateFails] at h
  | vbool b => simp [dateFails] at h
  | vint n => simp [dateFails] at h

/-- A failing coercion in any typed branch of `_apply_column_filter` is
caught, logged, and leaves the query unchanged. -/
theorem applyColumnFilter_of_fails (cfg : QConfig) (q : Query) (value : Val)
    (col : ColumnQ) (h : coerceFails value col = true) :
    applyColumnFilter cfg q value col = (q, [invalidFilterWarning col.name]) := by
  obtain ⟨cn, ct⟩ := col
  cases ct <;> simp only [coerceFails] at h
  · cases hpb : pyParseBool value with
    | ok b => rw [hpb] at h; simp at h
    | error e => simp [applyColumnFilter, hpb]
  · cases hpi : pyInt value with
    | ok n => rw [hpi] at h; simp at h
    | error e => simp [applyColumnFilter, hpi]
  · simp only [Bool.not_eq_true'] at h
    simp [applyColumnFilter, h]
  · simp at h
  · exact applyDateFilter_of_fails q value ⟨cn, .pydatetime⟩ h
  · exact applyDateFilter_of_fails q value ⟨cn, .pydate⟩ h
  · simp at h

/-- A key that is neither a bracket key, nor resolves to a callable scope,
nor is declared queryable, is a no-op step of `query_by`. -/
theorem queryByStep_unknown (cfg : QConfig) (reg : RegistryQ) (m : ModelQ)
    (key : String) (value : Val)
    (hb : isBracketKey key = false) (hs : noScope reg m ("of_" ++ key))
    (hq : ∀ ql, m.queryable = some ql → key ∉ ql) :
    ∀ acc, queryByStep cfg reg m acc (key, value) = acc := by
  intro acc
  simp only [queryByStep, hb, Bool.false_eq_true, if_false]
  cases hof : getModelAttr reg m ("of_" ++ key) with
  | none =>
    cases hql : m.queryable with
    | none => rfl
    | some ql => simp [hql, hq ql hql]
  | some a =>
    cases a with
    | scope f => exact absurd hof (hs f)
    | instrumented p =>
      cases hql : m.queryable with
      | none => rfl
      | some ql => simp [hql, hq ql hql]

/-- A bracket key whose `of_<col>` scope is missing is a no-op step of
`query_by`. -/
theorem queryByStep_bracket_noscope (cfg : QConfig) (reg : RegistryQ) (m : ModelQ)
    (key : String) (value : Val)
    (hb : isBracketKey key = true) (hs : noScope reg m ("of_" ++ bracketCol key)) :
    ∀ acc, queryByStep cfg reg m acc (key, value) = acc := by
  intro acc
  simp only [queryByStep, hb, if_true]
  unfold applyJsonFilter
  cases hof : getModelAttr reg m ("of_" ++ bracketCol key) with
  | none => rfl
  | some a =>
    cases a with
    | scope f => exact absurd hof (hs f)
    | instrumented p => rfl

/-- A queryable column key whose value fails coercion only appends the
warning, leaving the query component untouched. -/
theorem queryByStep_coerce_fail (cfg : QConfig) (reg : RegistryQ) (m : ModelQ)
    (key : String) (value : Val) (ql : List String) (c : ColumnQ)
    (hb : isBracketKey key = false) (hs : noScope reg m ("of_" ++ key))
    (hql : m.queryable = some ql) (hk : key ∈ ql)
    (ha : getModelAttr reg m key = some (.instrumented (.columnP c)))
    (hf : coerceFails value c = true) :
    ∀ acc, queryByStep cfg reg m acc (key, value) =
      (acc.1, acc.2 ++ [invalidFilterWarning c.name]) := by
  intro acc
  simp only [queryByStep, hb, Bool.false_eq_true, if_false]
  cases hof : getModelAttr reg m ("of_" ++ key) with
  | none => simp [hql, hk, ha, applyColumnFilter_of_fails cfg acc.1 value c hf]
  | some a =>
    cases a with
    | scope f => exact absurd hof (hs f)
    | instrumented p =>
      simp [hql, hk, ha, applyColumnFilter_of_fails cfg acc.1 value c hf]

/-- A `query_by` step decomposes into its query action and a log suffix
independent of the incoming log. -/
theorem queryByStep_decompose (cfg : QConfig) (reg : RegistryQ) (m : ModelQ)
    (kv : String × Val) (q : Query) (l : List String) :
    queryByStep cfg reg m (q, l) kv =
      ((queryByStep cfg reg m (q, []) kv).1,
        l ++ (queryByStep cfg reg m (q, []) kv).2) := by
  obtain ⟨key, value⟩ := kv
  by_cases hb : isBracketKey key
  · simp [queryByStep, hb]
  · simp only [queryByStep, hb, Bool.false_eq_true, if_false]
    cases hof : getModelAttr reg m ("of_" ++ key) with
    | none =>
      cases hql : m.queryable with
      | none => simp
      | some ql =>
        by_cases hk : key ∈ ql
        · simp only [hk, if_true]
          cases ha : getModelAttr reg m key with
          | none => simp
          | some a =>
            cases a with
            | scope f => simp
            | instrumented p =>
              cases p with
              | relationshipP t u => simp
              | columnP c => simp
        · simp [hk]
    | some a =>
      cases a with
      | scope f => simp
      | instrumented p =>
        cases hql : m.queryable with
        | none => simp
        | some ql =>
          by_cases hk : key ∈ ql
          · simp only [hk, if_true]
            cases ha : getModelAttr reg m key with
            | none => simp
            | some a2 =>
              cases a2 with
              | scope f => simp
              | instrumented p2 =>
                cases p2 with
                | relationshipP t u => simp
                | columnP c => simp
          · simp [hk]

/-- The `query_by` fold decomposes the same way: the final query ignores
the incoming log, which is only extended. -/
theorem queryByFold_decompose (cfg : QConfig) (reg : RegistryQ) (m : ModelQ) :
    ∀ (fs : List (String × Val)) (q : Query) (l : List String),
    List.foldl (queryByStep cfg reg m) (q, l) fs =
      ((List.foldl (queryByStep cfg reg m) (q, []) fs).1,
        l ++ (List.foldl (queryByStep cfg reg m) (q, []) fs).2) := by
  intro fs
  induction fs with
  | nil => intro q l; simp
  | cons kv rest ih =>
    intro q l
    simp only [List.foldl_cons]
    rw [queryByStep_decompose cfg reg m kv q l]
    have hL := ih (queryByStep cfg reg m (q, []) kv).1
      (l ++ (queryByStep cfg reg m (q, []) kv).2)
    have hR : List.foldl (queryByStep cfg reg m)
        (queryByStep cfg reg m (q, []) kv) rest =
        ((List.foldl (queryByStep cfg reg m)
            ((queryByStep cfg reg m (q, []) kv).1, []) rest).1,
          (queryByStep cfg reg m (q, []) kv).2 ++
            (List.foldl (queryByStep cfg reg m)
              ((queryByStep cfg reg m (q, []) kv).1, []) rest).2) :=
      ih (queryByStep cfg reg m (q, []) kv).1 (queryByStep cfg reg m (q, []) kv).2
    rw [hL, hR]
    simp [List.append_assoc]

/-- C2: `query_by` never raises — a filter key that is not declared
queryable and has no matching `of_` scope (bracketed or not) leaves the
query unchanged with respect to that key, and a filter value that fails
type coercion for its column's type is caught, logged and dropped while all
remaining filters are still applied. -/
theorem C2_query_by_leniency (cfg : QConfig) (reg : RegistryQ) (m : ModelQ)
    (q : Query) (pre post : List (String × Val)) (key : String) (value : Val) :
    (isBracketKey key = false → noScope reg m ("of_" ++ key) →
      (∀ ql, m.queryable = some ql → key ∉ ql) →
      queryBy cfg reg m q (pre ++ (key, value) :: post) =
        queryBy cfg reg m q (pre ++ post)) ∧
    (isBracketKey key = true → noScope reg m ("of_" ++ bracketCol key) →
      queryBy cfg reg m q (pre ++ (key, value) :: post) =
        queryBy cfg reg m q (pre ++ post)) ∧
    (∀ ql c, isBracketKey key = false → noScope reg m ("of_" ++ key) →
      m.queryable = some ql → key ∈ ql →
      getModelAttr reg m key = some (.instrumented (.columnP c)) →
      coerceFails value c = true →
      (queryBy cfg reg m q (pre ++ (key, value) :: post)).1 =
        (queryBy cfg reg m q (pre ++ post)).1 ∧
      invalidFilterWarning c.name ∈
        (queryBy cfg reg m q (pre ++ (key, value) :: post)).2) := by
  refine ⟨?_, ?_, ?_⟩
  · intro hb hs hq
    unfold queryBy
    cases hql : m.queryable with
    | none => rfl
    | some ql =>
      rw [List.foldl_append, List.foldl_append, List.foldl_cons,
        queryByStep_unknown cfg reg m key value hb hs hq]
  · intro hb hs
    unfold queryBy
    cases hql : m.queryable with
    | none => rfl
    | some ql =>
      rw [List.foldl_append, List.foldl_append, List.foldl_cons,
        queryByStep_bracket_noscope cfg reg m key value hb hs]
  · intro ql c hb hs hql hk ha hf
    unfold queryBy
    rw [hql]
    rw [List.foldl_append, List.foldl_append, List.foldl_cons,
      queryByStep_coerce_fail cfg reg m key value ql c hb hs hql hk ha hf]
    constructor
    · rw [queryByFold_decompose cfg reg m post
        (List.foldl (queryByStep cfg reg m) (q, []) pre).1
        ((List.foldl (queryByStep cfg reg m) (q, []) pre).2 ++
          [invalidFilterWarning c.name])]
      have h2 : List.foldl (queryByStep cfg reg m)
          (List.foldl (queryByStep cfg reg m) (q, []) pre) post =
          ((List.foldl (queryByStep cfg reg m)
              ((List.foldl (queryByStep cfg reg m) (q, []) pre).1, []) post).1,
            (List.foldl (queryByStep cfg reg m) (q, []) pre).2 ++
              (List.foldl (queryByStep cfg reg m)
                ((List.foldl (queryByStep cfg reg m) (q, []) pre).1, []) post).2) :=
        queryByFold_decompose cfg reg m post
          (List.foldl (queryByStep cfg reg m) (q, []) pre).1
          (List.foldl (queryByStep cfg reg m) (q, []) pre).2
      rw [h2]
    · rw [queryByFold_decompose cfg reg m post
        (List.foldl (queryByStep cfg reg m) (q, []) pre).1
        ((List.foldl (queryByStep cfg reg m) (q, []) pre).2 ++
          [invalidFilterWarning c.name])]
      simp

/-- Witness for C2: an unknown key is dropped entirely, and an
uncoercible integer filter value is dropped with a warning while the title
filter still applies. -/
theorem C2_query_by_leniency_witness :
    (queryBy ⟨false⟩ sampleReg postModel (.base "Post")
        [("doesNotExist", .vstr "x"), ("title", .vstr "Hello")] =
      queryBy ⟨false⟩ sampleReg postModel (.base "Post")
        [("title", .vstr "Hello")]) ∧
    ((queryBy ⟨false⟩ sampleReg postModel (.base "Post")
        [("id", .vstr "abc"), ("title", .vstr "Hello")]).1 =
      (queryBy ⟨false⟩ sampleReg postModel (.base "Post")
        [("title", .vstr "Hello")]).1) ∧
    invalidFilterWarning "id" ∈
      (queryBy ⟨false⟩ sampleReg postModel (.base "Post")
        [("id", .vstr "abc"), ("title", .vstr "Hello")]).2 := by
  have hns1 : noScope sampleReg postModel ("of_" ++ "doesNotExist") := by
    intro f h
    rw [show getModelAttr sampleReg postModel ("of_" ++ "doesNotExist") = none
      from rfl] at h
    exact Option.noConfusion h
  have hns2 : noScope sampleReg postModel ("of_" ++ "id") := by
    intro f h
    rw [show getModelAttr sampleReg postModel ("of_" ++ "id") = none from rfl] at h
    exact Option.noConfusion h
  have hnq : ∀ ql, postModel.queryable = some ql → "doesNotExist" ∉ ql := by
    intro ql hql
    have hql2 : some ["id", "title", "score", "published", "created_at"] = some ql := hql
    injection hql2 with h2
    subst h2
    decide
  have h1 := (C2_query_by_leniency ⟨false⟩ sampleReg postModel (.base "Post") []
    [("title", .vstr "Hello")] "doesNotExist" (.vstr "x")).1 (by decide) hns1 hnq
  have h3 := (C2_query_by_leniency ⟨false⟩ sampleReg postModel (.base "Post") []
    [("title", .vstr "Hello")] "id" (.vstr "abc")).2.2
    ["id", "title", "score", "published", "created_at"] ⟨"id", .pyint⟩
    (by decide) hns2 rfl (by decide) rfl (by decide)
  exact ⟨h1, h3.1, h3.2⟩

/-- The first unresolvable segment reported by `firstBadSeg` is one of the
path's segments. -/
theorem firstBadSeg_mem (reg : RegistryQ) :
    ∀ (rels : List String) (m : ModelQ) (s : String),
    firstBadSeg reg m rels = some s → s ∈ rels := by
  intro rels
  induction rels with
  | nil => intro m s h; simp [firstBadSeg] at h
  | cons r rest ih =>
    intro m s h
    simp only [firstBadSeg] at h
    cases hrt : relTarget reg m r with
    | none =>
      rw [hrt] at h
      injection h with h2
      subst h2
      exact List.mem_cons_self r rest
    | some tu =>
      rw [hrt] at h
      exact List.mem_cons_of_mem r (ih (modelFor reg tu.1) s h)

/-- `_join` walks the chain segment by segment; the first segment that does
not resolve to a relationship raises the 422 error naming it. -/
theorem joinFn_of_firstBad (reg : RegistryQ) :
    ∀ (rels : List String) (parent : ModelQ) (join : Option (List LoadStep))
      (s : String),
    firstBadSeg reg parent rels = some s →
    joinFn reg parent rels join false = .error ⟨422, "Invalid relationship " ++ s⟩ := by
  intro rels
  induction rels with
  | nil => intro parent join s h; simp [firstBadSeg] at h
  | cons r rest ih =>
    intro parent join s h
    simp only [firstBadSeg] at h
    cases hga : getModelAttr reg parent r with
    | none =>
      rw [show relTarget reg parent r = none by simp [relTarget, hga]] at h
      injection h with h2
      subst h2
      simp [joinFn, hga]
    | some a =>
      cases a with
      | scope f =>
        rw [show relTarget reg parent r = none by simp [relTarget, hga]] at h
        injection h with h2
        subst h2
        simp [joinFn, hga]
      | instrumented p =>
        cases p with
        | columnP c =>
          rw [show relTarget reg parent r = none by simp [relTarget, hga]] at h
          injection h with h2
          subst h2
          simp [joinFn, hga]
        | relationshipP t u =>
          rw [show relTarget reg parent r = some (t, u) by simp [relTarget, hga]] at h
          cases rest with
          | nil => simp [firstBadSeg] at h
          | cons r2 rest2 =>
            simp only [joinFn, hga, List.isEmpty_cons, Bool.false_eq_true, if_false]
            exact ih (modelFor reg t) (some (applyJoin join u r)) s h

/-- When every segment resolves, `_join` returns an eager-load chain. -/
theorem joinFn_of_allGood (reg : RegistryQ) :
    ∀ (rels : List String) (parent : ModelQ) (join : Option (List LoadStep)),
    rels ≠ [] →
    firstBadSeg reg parent rels = none →
    ∃ steps, joinFn reg parent rels join false = .ok (some steps) := by
  intro rels
  induction rels with
  | nil => intro parent join hne h; exact absurd rfl hne
  | cons r rest ih =>
    intro parent join hne h
    simp only [firstBadSeg] at h
    cases hga : getModelAttr reg parent r with
    | none =>
      rw [show relTarget reg parent r = none by simp [relTarget, hga]] at h
      exact Option.noConfusion h
    | some a =>
      cases a with
      | scope f =>
        rw [show relTarget reg parent r = none by simp [relTarget, hga]] at h
        exact Option.noConfusion h
      | instrumented p =>
        cases p with
        | columnP c =>
          rw [show relTarget reg parent r = none by simp [relTarget, hga]] at h
          exact Option.noConfusion h
        | relationshipP t u =>
          rw [show relTarget reg parent r = some (t, u) by simp [relTarget, hga]] at h
          cases rest with
          | nil => exact ⟨applyJoin join u r, by simp [joinFn, hga]⟩
          | cons r2 rest2 =>
            obtain ⟨steps, hsteps⟩ := ih (modelFor reg t) (some (applyJoin join u r))
              (by simp) h
            refine ⟨steps, ?_⟩
            simp only [joinFn, hga, List.isEmpty_cons, Bool.false_eq_true, if_false]
            exact hsteps

/-- The `includes` loop propagates the first failing path's 422 error once
all the paths before it resolved. -/
theorem includesGo_of_firstBad (reg : RegistryQ) (m : ModelQ) :
    ∀ (pre : List String) (q : Query) (p : String) (rest : List String) (s : String),
    (∀ p2 ∈ pre, pySplitChar '.' p2 ≠ [] ∧
      firstBadSeg reg m (pySplitChar '.' p2) = none) →
    firstBadSeg reg m (pySplitChar '.' p) = some s →
    includesGo reg m q (pre ++ p :: rest) = .error ⟨422, "Invalid relationship " ++ s⟩ := by
  intro pre
  induction pre with
  | nil =>
    intro q p rest s _ hbad
    simp only [List.nil_append, includesGo]
    rw [joinFn_of_firstBad reg (pySplitChar '.' p) m none s hbad]
  | cons p2 pre2 ih =>
    intro q p rest s hpre hbad
    obtain ⟨hne, hnone⟩ := hpre p2 (List.mem_cons_self p2 pre2)
    obtain ⟨steps, hok⟩ := joinFn_of_allGood reg (pySplitChar '.' p2) m none hne hnone
    simp only [List.cons_append, includesGo, hok]
    exact ih (q.options (.chain steps)) p rest s
      (fun p3 h3 => hpre p3 (List.mem_cons_of_mem p2 h3)) hbad

/-- C3: without the wildcard, an include path whose chain hits a segment
that does not resolve to a declared relationship makes `includes` raise the
422 client error naming that segment (provided the paths listed before it
resolve); the offending segment is one of the path's dot-components, found
by walking the chain segment by segment. -/
theorem C3_includes_bad_segment (reg : RegistryQ) (m : ModelQ) (q : Query)
    (pre rest : List String) (p s : String)
    (hw : "*" ∉ pre ++ p :: rest)
    (hpre : ∀ p2 ∈ pre, pySplitChar '.' p2 ≠ [] ∧
      firstBadSeg reg m (pySplitChar '.' p2) = none)
    (hbad : firstBadSeg reg m (pySplitChar '.' p) = some s) :
    includesFn reg m q (pre ++ p :: rest) =
      .error ⟨422, "Invalid relationship " ++ s⟩ ∧
    s ∈ pySplitChar '.' p := by
  constructor
  · rw [includesFn, if_neg hw]
    exact includesGo_of_firstBad reg m pre q p rest s hpre hbad
  · exact firstBadSeg_mem reg (pySplitChar '.' p) m s hbad

/-- Witness for C3: after the resolvable path `author`, the path
`messages.bogus` fails on its second segment and `includes` raises the 422
error naming `bogus`. -/
theorem C3_includes_bad_segment_witness :
    includesFn sampleReg postModel (.base "Post") ["author", "messages.bogus"] =
      .error ⟨422, "Invalid relationship bogus"⟩ ∧
    "bogus" ∈ pySplitChar '.' "messages.bogus" := by
  have h := C3_includes_bad_segment sampleReg postModel (.base "Post")
    ["author"] [] "messages.bogus" "bogus" (by decide)
    (by intro p2 h2; rw [List.mem_singleton] at h2; subst h2; exact ⟨by decide, by decide⟩)
    (by decide)
  exact h

/-- `Char.toNat` is injective. -/
theorem charToNat_inj {a b : Char} (h : a.toNat = b.toNat) : a = b := by
  rw [← Char.ofNat_toNat a, ← Char.ofNat_toNat b, h]

/-- `String.data` is injective. -/
theorem strDataInj (a b : String) (h : a.data = b.data) : a = b := by
  cases a
  cases b
  exact congrArg String.mk h

/-- `lexLe` is total. -/
theorem lexLe_total : ∀ a b : List Char, lexLe a b = true ∨ lexLe b a = true := by
  intro a
  induction a with
  | nil => intro b; exact Or.inl rfl
  | cons x as ih =>
    intro b
    cases b with
    | nil => exact Or.inr rfl
    | cons y bs =>
      by_cases h1 : x.toNat < y.toNat
      · left; simp [lexLe, h1]
      · by_cases h2 : y.toNat < x.toNat
        · right; simp [lexLe, h2]
        · rcases ih bs with h | h
          · left; simp [lexLe, h1, h2, h]
          · right; simp [lexLe, h1, h2, h]

/-- `lexLe` is transitive. -/
theorem lexLe_trans : ∀ a b c : List Char,
    lexLe a b = true → lexLe b c = true → lexLe a c = true := by
  intro a
  induction a with
  | nil => intro b c _ _; rfl
  | cons x as ih =>
    intro b c h1 h2
    cases b with
    | nil => simp [lexLe] at h1
    | cons y bs =>
      cases c with
      | nil => simp [lexLe] at h2
      | cons z cs =>
        simp only [lexLe] at h1 h2 ⊢
        by_cases hxy : x.toNat < y.toNat
        · by_cases hyz : y.toNat < z.toNat
          · have hxz : x.toNat < z.toNat := Nat.lt_trans hxy hyz
            simp [hxz]
          · by_cases hzy : z.toNat < y.toNat
            · rw [if_neg hyz, if_pos hzy] at h2
              exact absurd h2 (by simp)
            · have hxz : x.toNat < z.toNat := by omega
              simp [hxz]
        · by_cases hyx : y.toNat < x.toNat
          · rw [if_neg hxy, if_pos hyx] at h1
            exact absurd h1 (by simp)
          · rw [if_neg hxy, if_neg hyx] at h1
            by_cases hyz : y.toNat < z.toNat
            · have hxz : x.toNat < z.toNat := by omega
              simp [hxz]
            · by_cases hzy : z.toNat < y.toNat
              · rw [if_neg hyz, if_pos hzy] at h2
                exact absurd h2 (by simp)
              · rw [if_neg hyz, if_neg hzy] at h2
                have hxz : ¬ x.toNat < z.toNat := by omega
                have hzx : ¬ z.toNat < x.toNat := by omega
                rw [if_neg hxz, if_neg hzx]
                exact ih bs cs h1 h2

/-- `lexLe` is antisymmetric. -/
theorem lexLe_antisymm : ∀ a b : List Char,
    lexLe a b = true → lexLe b a = true → a = b := by
  intro a
  induction a with
  | nil =>
    intro b h1 h2
    cases b with
    | nil => rfl
    | cons y bs => simp [lexLe] at h2
  | cons x as ih =>
    intro b h1 h2
    cases b with
    | nil => simp [lexLe] at h1
    | cons y bs =>
      simp only [lexLe] at h1 h2
      by_cases hxy : x.toNat < y.toNat
      · rw [if_neg (by omega : ¬ y.toNat < x.toNat), if_pos hxy] at h2
        exact absurd h2 (by simp)
      · by_cases hyx : y.toNat < x.toNat
        · rw [if_neg hxy, if_pos hyx] at h1
          exact absurd h1 (by simp)
        · rw [if_neg hxy, if_neg hyx] at h1
          rw [if_neg hyx, if_neg hxy] at h2
          have hxy2 : x = y := charToNat_inj (by omega)
          rw [hxy2, ih bs h1 h2]

/-- Two insertions with distinct keys commute. -/
theorem insertPair_comm (p q : String × String) (hne : p.1 ≠ q.1) :
    ∀ l, insertPair p (insertPair q l) = insertPair q (insertPair p l) := by
  have hanti : ¬(lexLe p.1.data q.1.data = true ∧ lexLe q.1.data p.1.data = true) := by
    rintro ⟨h1, h2⟩
    exact hne (strDataInj _ _ (lexLe_antisymm _ _ h1 h2))
  have htot : ∀ u v : List Char, ¬ lexLe u v = true → lexLe v u = true := by
    intro u v h
    rcases lexLe_total u v with h2 | h2
    · exact absurd h2 h
    · exact h2
  intro l
  induction l with
  | nil =>
    by_cases hpq : lexLe p.1.data q.1.data
    · have hqp : ¬ lexLe q.1.data p.1.data = true := fun h => hanti ⟨hpq, h⟩
      simp [insertPair, hpq, hqp]
    · have hqp : lexLe q.1.data p.1.data = true := htot _ _ hpq
      simp [insertPair, hpq, hqp]
  | cons r rest ih =>
    by_cases hpq : lexLe p.1.data q.1.data
    · have hqp : ¬ lexLe q.1.data p.1.data = true := fun h => hanti ⟨hpq, h⟩
      by_cases hqr : lexLe q.1.data r.1.data
      · have hpr : lexLe p.1.data r.1.data = true := lexLe_trans _ _ _ hpq hqr
        simp [insertPair, hpq, hqr, hpr, hqp]
      · by_cases hpr : lexLe p.1.data r.1.data
        · simp [insertPair, hpq, hqr, hpr, hqp]
        · simp only [insertPair, if_neg hqr, if_neg hpr, if_pos hpq]
          rw [ih]
    · have hqp : lexLe q.1.data p.1.data = true := htot _ _ hpq
      by_cases hqr : lexLe q.1.data r.1.data
      · by_cases hpr : lexLe p.1.data r.1.data
        · simp [insertPair, hpq, hqr, hpr, hqp]
        · simp [insertPair, hpq, hqr, hpr, hqp]
      · have hpr : ¬ lexLe p.1.data r.1.data = true := by
          intro h
          exact hqr (lexLe_trans _ _ _ hqp h)
        simp only [insertPair, if_neg hqr, if_neg hpr, if_neg hpq]
        rw [ih]

/-- Sorting by key is invariant under permutation of an entry list with
duplicate-free keys. -/
theorem sortPairs_perm_eq : ∀ {l1 l2 : List (String × String)}, l1.Perm l2 →
    (l1.map Prod.fst).Nodup → sortPairsByKey l1 = sortPairsByKey l2 := by
  intro l1 l2 h
  induction h with
  | nil => intro _; rfl
  | cons x h2 ih =>
    intro hnd
    simp only [sortPairsByKey]
    rw [ih (by simpa using (List.nodup_cons.mp (by simpa using hnd)).2)]
  | swap x y t =>
    intro hnd
    simp only [sortPairsByKey]
    have hne : y.1 ≠ x.1 := by
      simp only [List.map_cons, List.nodup_cons, List.mem_cons] at hnd
      exact fun h2 => hnd.1 (Or.inl h2)
    exact insertPair_comm y x hne (sortPairsByKey t)
  | trans h1 h2 ih1 ih2 =>
    intro hnd
    have hnd2 := ((h1.map Prod.fst).nodup_iff).mp hnd
    exact (ih1 hnd).trans (ih2 hnd2)

/-- `List.contains` agrees with membership for strings. -/
theorem strContains_iff (l : List String) (k : String) :
    l.contains k = true ↔ k ∈ l :=
  List.elem_iff

/-- Deduplication is the identity on entry lists with duplicate-free keys. -/
theorem dedupByKeyAux_eq_self {α : Type} :
    ∀ (l : List (String × α)) (seen : List String),
    (l.map Prod.fst).Nodup → (∀ p ∈ l, p.1 ∉ seen) →
    dedupByKeyAux seen l = l := by
  intro l
  induction l with
  | nil => intro seen _ _; rfl
  | cons kv rest ih =>
    intro seen hnd hseen
    obtain ⟨k, v⟩ := kv
    have hks : k ∉ seen := hseen (k, v) (List.mem_cons_self _ _)
    have hkc : seen.contains k = false := by
      rcases h2 : seen.contains k with _ | _
      · rfl
      · exact absurd ((strContains_iff seen k).mp h2) hks
    simp only [dedupByKeyAux, hkc, Bool.false_eq_true, if_false]
    simp only [List.map_cons, List.nodup_cons] at hnd
    rw [ih (k :: seen) hnd.2]
    intro p hp
    simp only [List.mem_cons]
    rintro (h | h)
    · exact hnd.1 (h ▸ List.mem_map_of_mem Prod.fst hp)
    · exact hseen p (List.mem_cons_of_mem _ hp) h

/-- `dedupByKey` is the identity on duplicate-free keys. -/
theorem dedupByKey_eq_self {α : Type} (l : List (String × α))
    (h : (l.map Prod.fst).Nodup) : dedupByKey l = l :=
  dedupByKeyAux_eq_self l [] h (fun _ _ => List.not_mem_nil _)

/-- `qsEntries` is a pointwise map over the entries. -/
theorem qsEntries_eq_map : ∀ l : List (String × SymList), qsEntries l =
    l.map (fun kv =>
      (kv.1, if isDictColl kv.2 then kv.1 ++ "[" ++ qsDict kv.2 ++ "]" else kv.1)) := by
  intro l
  induction l with
  | nil => rfl
  | cons kv rest ih =>
    obtain ⟨k, v⟩ := kv
    simp [qsEntries, ih]

/-- `qsEntries` preserves the key list. -/
theorem qsEntries_keys (l : List (String × SymList)) :
    (qsEntries l).map Prod.fst = l.map Prod.fst := by
  rw [qsEntries_eq_map]
  simp

/-- Canonically-equal spec components have the same truthiness. -/
theorem permEqD_truthy {a b : SymList} (h : PermEqD a b) :
    symTruthy a = symTruthy b := by
  rcases h with rfl | ⟨l1, l2, rfl, rfl, _, hp⟩
  · rfl
  · have := hp.length_eq
    cases l1 <;> cases l2 <;> simp_all [symTruthy]

/-- Canonically-equal spec components have the same `_qs_dict` encoding. -/
theorem permEqD_qsDict {a b : SymList} (h : PermEqD a b) : qsDict a = qsDict b := by
  rcases h with rfl | ⟨l1, l2, rfl, rfl, hnd, hp⟩
  · rfl
  · simp only [qsDict]
    have hnd2 : (l2.map Prod.fst).Nodup := ((hp.map Prod.fst).nodup_iff).mp hnd
    have hk1 : ((qsEntries l1).map Prod.fst).Nodup := by rw [qsEntries_keys]; exact hnd
    have hk2 : ((qsEntries l2).map Prod.fst).Nodup := by rw [qsEntries_keys]; exact hnd2
    rw [dedupByKey_eq_self _ hk1, dedupByKey_eq_self _ hk2]
    have hperm : (qsEntries l1).Perm (qsEntries l2) := by
      rw [qsEntries_eq_map, qsEntries_eq_map]
      exact hp.map _
    rw [sortPairs_perm_eq hperm hk1]

/-- Filtering the dict-valued entries preserves canonical equality. -/
theorem permEqD_filterDict {a b : SymList} (h : PermEqD a b) :
    PermEqD (.dict ((entriesOf a).filter (fun kv => isDictColl kv.2)))
      (.dict ((entriesOf b).filter (fun kv => isDictColl kv.2))) := by
  rcases h with rfl | ⟨l1, l2, rfl, rfl, hnd, hp⟩
  · exact Or.inl rfl
  · refine Or.inr ⟨_, _, rfl, rfl, ?_, hp.filter _⟩
    simp only [entriesOf]
    exact ((List.filter_sublist l1).map Prod.fst).nodup hnd

/-- Canonical equality is symmetric. -/
theorem permEqD_symm {a b : SymList} (h : PermEqD a b) : PermEqD b a := by
  rcases h with rfl | ⟨l1, l2, rfl, rfl, hnd, hp⟩
  · exact Or.inl rfl
  · exact Or.inr ⟨l2, l1, rfl, rfl, ((hp.map Prod.fst).nodup_iff).mp hnd, hp.symm⟩

/-- The cache key of `generateSchema` depends only on the canonical form of
the four spec components. -/
theorem generateName_congr (reg : RegistryS) (mn : String)
    {e1 i1 r1 x1 e2 i2 r2 x2 : SymList} (aO iV uD : Bool)
    (hE : PermEqD e1 e2) (hI : PermEqD i1 i2) (hR : PermEqD r1 r2)
    (hX : PermEqD x1 x2) :
    generateName reg mn e1 i1 r1 x1 aO iV uD =
      generateName reg mn e2 i2 r2 x2 aO iV uD := by
  unfold generateName qs
  rw [permEqD_truthy hI, permEqD_qsDict hI, permEqD_truthy hE, permEqD_qsDict hE,
    permEqD_truthy hX, permEqD_qsDict hX]
  by_cases hti : symTruthy i2
  · simp only [hti, if_true]
    have hF := permEqD_filterDict hI
    rw [permEqD_truthy hF, permEqD_qsDict hF]
  · simp only [hti, Bool.false_eq_true, if_false]
    rw [permEqD_truthy hR, permEqD_qsDict hR]

/-- Looking up the key just written by `pyInsert` returns the written
value. -/
theorem lookup_pyInsert_self {α : Type} :
    ∀ (l : List (String × α)) (k : String) (v : α),
    (pyInsert l k v).lookup k = some v := by
  intro l
  induction l with
  | nil => intro k v; simp [pyInsert, List.lookup]
  | cons kv rest ih =>
    intro k v
    obtain ⟨k2, v2⟩ := kv
    by_cases h : k2 = k
    · subst h
      simp [pyInsert, List.lookup]
    · have h2 : (k2 == k) = false := by simpa using h
      have h3 : (k == k2) = false := by simpa using Ne.symm h
      simp only [pyInsert, h2, Bool.false_eq_true, if_false]
      simp only [List.lookup, h3]
      exact ih k v

/-- With equal cache keys, a second `generateSchema` call right after a
first one returns exactly the first call's compiled object and leaves the
cache untouched. -/
theorem generateSchema_second_call (fuel : Nat) (reg : RegistryS) (mn : String)
    (e1 i1 r1 x1 e2 i2 r2 x2 : SymList) (aO iV uD : Bool) (lFL : Option Bool)
    (c0 : Cache)
    (hn : generateName reg mn e2 i2 r2 x2 aO iV uD =
      generateName reg mn e1 i1 r1 x1 aO iV uD) :
    generateSchema fuel reg mn e2 i2 r2 x2 aO iV uD lFL none
        (generateSchema fuel reg mn e1 i1 r1 x1 aO iV uD lFL none c0).2 =
      ((generateSchema fuel reg mn e1 i1 r1 x1 aO iV uD lFL none c0).1,
        (generateSchema fuel reg mn e1 i1 r1 x1 aO iV uD lFL none c0).2) := by
  cases fuel with
  | zero => rfl
  | succ fuel2 =>
    have hn2 : qs (modelSFor reg mn).name e2 i2
        (if symTruthy i2 then
          SymList.dict ((entriesOf i2).filter (fun kv => isDictColl kv.2))
         else r2) x2 aO iV uD =
        qs (modelSFor reg mn).name e1 i1
        (if symTruthy i1 then
          SymList.dict ((entriesOf i1).filter (fun kv => isDictColl kv.2))
         else r1) x1 aO iV uD := hn
    simp only [generateSchema]
    rw [hn2]
    cases hval : c0.lookup (qs (modelSFor reg mn).name e1 i1
        (if symTruthy i1 then
          SymList.dict ((entriesOf i1).filter (fun kv => isDictColl kv.2))
         else r1) x1 aO iV uD) with
    | some s => simp [hval]
    | none =>
      simp only [hval]
      rw [lookup_pyInsert_self]

/-- C4: two `generate` calls whose exclude/include/relationships/extras
components normalize to the same canonical form — entry lists that are
permutations of one another (different dict insertion orders, or
set/tuple/list spellings flattened by normalization), with the
duplicate-free keys Python dictionaries guarantee — compute the same
canonical cache key; and any two calls with the same canonical cache key
(the encoding also sorts every nested level) have the second return the
identical already-compiled schema object of the first, leaving the cache
unchanged. -/
theorem C4_schema_cache_structural_identity (fuel : Nat) (reg : RegistryS)
    (mn : String) (e1 i1 r1 x1 e2 i2 r2 x2 : SymList) (aO iV uD : Bool)
    (lFL : Option Bool) (c0 : Cache) :
    ((PermEqD (normalizeSym e1) (normalizeSym e2) ∧
      PermEqD (normalizeSym i1) (normalizeSym i2) ∧
      PermEqD (normalizeSym r1) (normalizeSym r2) ∧
      PermEqD (normalizeSym x1) (normalizeSym x2)) →
      genericName reg mn e1 i1 r1 x1 aO iV uD =
        genericName reg mn e2 i2 r2 x2 aO iV uD) ∧
    (genericName reg mn e2 i2 r2 x2 aO iV uD =
        genericName reg mn e1 i1 r1 x1 aO iV uD →
      genericSchema fuel reg mn e2 i2 r2 x2 aO iV uD lFL none false
          (genericSchema fuel reg mn e1 i1 r1 x1 aO iV uD lFL none false c0).2 =
        ((genericSchema fuel reg mn e1 i1 r1 x1 aO iV uD lFL none false c0).1,
          (genericSchema fuel reg mn e1 i1 r1 x1 aO iV uD lFL none false c0).2)) := by
  constructor
  · rintro ⟨hE, hI, hR, hX⟩
    exact generateName_congr reg mn aO iV uD hE hI hR hX
  · intro hn
    exact generateSchema_second_call fuel reg mn (normalizeSym e1) (normalizeSym i1)
      (normalizeSym r1) (normalizeSym x1) (normalizeSym e2) (normalizeSym i2)
      (normalizeSym r2) (normalizeSym x2) aO iV uD lFL c0 hn

/-- Witness for C4: the same exclude set in two insertion orders, an
include list spelled as a collection versus a dictionary — the keys agree
and the second call returns the first call's object with the cache
untouched. -/
theorem C4_schema_cache_structural_identity_witness :
    genericName mRegS "M"
        (.dict [("a", .b true), ("b", .b true)]) (.coll [.s "id"])
        (.dict []) (.dict []) true true true =
      genericName mRegS "M"
        (.dict [("b", .b true), ("a", .b true)]) (.dict [("id", .b true)])
        (.dict []) (.dict []) true true true ∧
    genericSchema 2 mRegS "M"
        (.dict [("b", .b true), ("a", .b true)]) (.dict [("id", .b true)])
        (.dict []) (.dict []) true true true (some false) none false
        (genericSchema 2 mRegS "M"
          (.dict [("a", .b true), ("b", .b true)]) (.coll [.s "id"])
          (.dict []) (.dict []) true true true (some false) none false []).2 =
      ((genericSchema 2 mRegS "M"
          (.dict [("a", .b true), ("b", .b true)]) (.coll [.s "id"])
          (.dict []) (.dict []) true true true (some false) none false []).1,
        (genericSchema 2 mRegS "M"
          (.dict [("a", .b true), ("b", .b true)]) (.coll [.s "id"])
          (.dict []) (.dict []) true true true (some false) none false []).2) := by
  have hE : PermEqD (normalizeSym (.dict [("a", .b true), ("b", .b true)]))
      (normalizeSym (.dict [("b", .b true), ("a", .b true)])) :=
    Or.inr ⟨[("a", SymList.b true), ("b", SymList.b true)],
      [("b", SymList.b true), ("a", SymList.b true)],
      rfl, rfl, by decide, List.Perm.swap ("b", SymList.b true) ("a", SymList.b true) []⟩
  have hI : PermEqD (normalizeSym (.coll [.s "id"]))
      (normalizeSym (.dict [("id", .b true)])) := Or.inl rfl
  have hT : PermEqD (normalizeSym (.dict [])) (normalizeSym (.dict [])) :=
    Or.inl rfl
  have h := C4_schema_cache_structural_identity 2 mRegS "M"
    (.dict [("a", .b true), ("b", .b true)]) (.coll [.s "id"]) (.dict []) (.dict [])
    (.dict [("b", .b true), ("a", .b true)]) (.dict [("id", .b true)]) (.dict [])
    (.dict []) true true true (some false) []
  exact ⟨h.1 ⟨hE, hI, hT, hT⟩, h.2 (h.1 ⟨hE, hI, hT, hT⟩).symm⟩

/-- Keys after a `pyInsert`. -/
theorem mem_keys_pyInsert {α : Type} :
    ∀ (l : List (String × α)) (k : String) (v : α) (n : String),
    n ∈ (pyInsert l k v).map Prod.fst ↔ n = k ∨ n ∈ l.map Prod.fst := by
  intro l k v n
  induction l with
  | nil => simp [pyInsert]
  | cons kv rest ih =>
    obtain ⟨k2, v2⟩ := kv
    by_cases h : k2 = k
    · subst h
      simp [pyInsert]
      try tauto
    · have h2 : (k2 == k) = false := by simpa using h
      simp [pyInsert, h2, ih]
      try tauto

/-- A column reaches the field table only if the password guard did not
fire. -/
theorem buildFieldsStep_keys (e i : SymList) (aO : Bool)
    (fs : List (String × TyObj × Bool)) (c : ColumnS) (n : String)
    (h : n ∈ (buildFieldsStep e i aO fs c).map Prod.fst) :
    n ∈ fs.map Prod.fst ∨ (n = c.name ∧
      (strHasSub "password" c.name &&
        !(symHasKey (if symTruthy i then i else .dict []) c.name)) = false) := by
  unfold buildFieldsStep at h
  by_cases h1 : symHasKey e c.name
  · simp only [h1, if_true] at h
    exact Or.inl h
  · simp only [h1, Bool.false_eq_true, if_false] at h
    by_cases h2 : symTruthy i && !(symHasKey i c.name)
    · simp only [h2, if_true] at h
      exact Or.inl h
    · simp only [h2, Bool.false_eq_true, if_false] at h
      by_cases h3 : strHasSub "password" c.name &&
          !(symHasKey (if symTruthy i then i else .dict []) c.name)
      · simp only [h3, if_true] at h
        exact Or.inl h
      · simp only [h3, Bool.false_eq_true, if_false] at h
        by_cases h4 : aO || c.nullable || c.hasDefault
        · simp only [h4, if_true] at h
          rcases (mem_keys_pyInsert fs c.name _ n).mp h with h5 | h5
          · exact Or.inr ⟨h5, by simpa using h3⟩
          · exact Or.inl h5
        · simp only [h4, Bool.false_eq_true, if_false] at h
          rcases (mem_keys_pyInsert fs c.name _ n).mp h with h5 | h5
          · exact Or.inr ⟨h5, by simpa using h3⟩
          · exact Or.inl h5

/-- Fold version of `buildFieldsStep_keys`. -/
theorem buildFields_fold_keys (e i : SymList) (aO : Bool) (n : String) :
    ∀ (cols : List ColumnS) (fs0 : List (String × TyObj × Bool)),
    n ∈ ((cols.foldl (buildFieldsStep e i aO) fs0).map Prod.fst) →
    n ∈ fs0.map Prod.fst ∨ ∃ c, c ∈ cols ∧ n = c.name ∧
      (strHasSub "password" c.name &&
        !(symHasKey (if symTruthy i then i else .dict []) c.name)) = false := by
  intro cols
  induction cols with
  | nil => intro fs0 h; exact Or.inl h
  | cons c rest ih =>
    intro fs0 h
    rcases ih (buildFieldsStep e i aO fs0 c) h with h2 | ⟨c2, hc2, h3⟩
    · rcases buildFieldsStep_keys e i aO fs0 c n h2 with h4 | h4
      · exact Or.inl h4
      · exact Or.inr ⟨c, List.mem_cons_self c rest, h4⟩
    · exact Or.inr ⟨c2, List.mem_cons_of_mem c hc2, h3⟩

/-- Keys added by the virtual-field builder come from the virtuals list. -/
theorem buildVirtual_fold_keys (e i : SymList) (n : String) :
    ∀ (vs : List (String × PyType)) (fs0 : List (String × TyObj × Bool)),
    n ∈ ((vs.foldl (buildVirtualStep e i) fs0).map Prod.fst) →
    n ∈ fs0.map Prod.fst ∨ ∃ pv, pv ∈ vs ∧ n = pv.1 := by
  intro vs
  induction vs with
  | nil => intro fs0 h; exact Or.inl h
  | cons pv rest ih =>
    intro fs0 h
    rcases ih (buildVirtualStep e i fs0 pv) h with h2 | ⟨pv2, hpv2, h3⟩
    · unfold buildVirtualStep at h2
      by_cases h1 : symHasKey e pv.1
      · simp only [h1, if_true] at h2
        exact Or.inl h2
      · simp only [h1, Bool.false_eq_true, if_false] at h2
        by_cases h4 : symTruthy i && !(symHasKey i pv.1)
        · simp only [h4, if_true] at h2
          exact Or.inl h2
        · simp only [h4, Bool.false_eq_true, if_false] at h2
          rcases (mem_keys_pyInsert fs0 pv.1 _ n).mp h2 with h5 | h5
          · exact Or.inr ⟨pv, List.mem_cons_self pv rest, h5⟩
          · exact Or.inl h5
    · exact Or.inr ⟨pv2, List.mem_cons_of_mem pv hpv2, h3⟩

/-- A relationship build step only ever adds its own key. -/
theorem buildRelationship_keys
    (recurse : String → SymList → SymList → SymList → SymList → Bool → Bool →
      Cache → TyObj × Cache)
    (model : ModelS) (k : String) (e i r x : SymList) (aO iV uD : Bool)
    (acc : List (String × TyObj × Bool) × Cache) (n : String)
    (h : n ∈ ((buildRelationship recurse model k e i r x aO iV uD acc).1).map Prod.fst) :
    n ∈ (acc.1).map Prod.fst ∨ n = k := by
  unfold buildRelationship at h
  cases h2 : model.relationships.lookup k with
  | none =>
    rw [h2] at h
    exact Or.inl h
  | some rel =>
    rw [h2] at h
    simp only at h
    rcases (mem_keys_pyInsert acc.1 k _ n).mp h with h3 | h3
    · exact Or.inr h3
    · exact Or.inl h3

/-- Keys added by the relationship fold come from the relationships
entries. -/
theorem relationship_fold_keys
    (recurse : String → SymList → SymList → SymList → SymList → Bool → Bool →
      Cache → TyObj × Cache)
    (model : ModelS) (e i r x : SymList) (aO iV uD : Bool) (n : String) :
    ∀ (entries : List (String × SymList)) (acc : List (String × TyObj × Bool) × Cache),
    n ∈ (((entries.foldl (fun acc2 kv =>
        buildRelationship recurse model kv.1 e i r x aO iV uD acc2) acc).1).map Prod.fst) →
    n ∈ (acc.1).map Prod.fst ∨ ∃ kv, kv ∈ entries ∧ n = kv.1 := by
  intro entries
  induction entries with
  | nil => intro acc h; exact Or.inl h
  | cons kv rest ih =>
    intro acc h
    rcases ih (buildRelationship recurse model kv.1 e i r x aO iV uD acc) h with
      h2 | ⟨kv2, hkv2, h3⟩
    · rcases buildRelationship_keys recurse model kv.1 e i r x aO iV uD acc n h2 with
        h4 | h4
      · exact Or.inl h4
      · exact Or.inr ⟨kv, List.mem_cons_self kv rest, h4⟩
    · exact Or.inr ⟨kv2, List.mem_cons_of_mem kv hkv2, h3⟩

/-- Keys added by the extras fold come from the extras entries. -/
theorem extras_fold_keys (aO : Bool) (n : String) :
    ∀ (entries : List (String × SymList)) (fs0 : List (String × TyObj × Bool)),
    n ∈ ((entries.foldl (extrasStep aO) fs0).map Prod.fst) →
    n ∈ fs0.map Prod.fst ∨ ∃ kv, kv ∈ entries ∧ n = kv.1 := by
  intro entries
  induction entries with
  | nil => intro fs0 h; exact Or.inl h
  | cons kv rest ih =>
    intro fs0 h
    rcases ih (extrasStep aO fs0 kv) h with h2 | ⟨kv2, hkv2, h3⟩
    · unfold extrasStep at h2
      obtain ⟨k, v⟩ := kv
      cases v with
      | dict l => exact Or.inl h2
      | ty t =>
        rcases (mem_keys_pyInsert fs0 k _ n).mp h2 with h5 | h5
        · exact Or.inr ⟨(k, .ty t), List.mem_cons_self _ rest, h5⟩
        · exact Or.inl h5
      | b bv =>
        rcases (mem_keys_pyInsert fs0 k _ n).mp h2 with h5 | h5
        · exact Or.inr ⟨(k, .b bv), List.mem_cons_self _ rest, h5⟩
        · exact Or.inl h5
      | coll l =>
        rcases (mem_keys_pyInsert fs0 k _ n).mp h2 with h5 | h5
        · exact Or.inr ⟨(k, .coll l), List.mem_cons_self _ rest, h5⟩
        · exact Or.inl h5
    · exact Or.inr ⟨kv2, List.mem_cons_of_mem kv hkv2, h3⟩

/-- Keys added by the `create_model` merge come from the merged list. -/
theorem merge_fold_keys (n : String) :
    ∀ (l : List (String × TyObj × Bool)) (fs0 : List (String × TyObj × Bool)),
    n ∈ ((l.foldl mergeStep fs0).map Prod.fst) →
    n ∈ fs0.map Prod.fst ∨ n ∈ l.map Prod.fst := by
  intro l
  induction l with
  | nil => intro fs0 h; exact Or.inl h
  | cons kv rest ih =>
    intro fs0 h
    rcases ih (mergeStep fs0 kv) h with h2 | h2
    · unfold mergeStep at h2
      rcases (mem_keys_pyInsert fs0 kv.1 _ n).mp h2 with h3 | h3
      · exact Or.inr (by simp [h3])
      · exact Or.inl h3
    · exact Or.inr (List.mem_cons_of_mem _ h2)

/-- C8: a column whose name contains the substring `password` and is not
explicitly named by the include list never yields a schema field: it never
enters the column-field table, and the whole compiled schema has no field
under that name unless the spec separately synthesizes one of the same name
as a virtual, relationship or extras entry. -/
theorem C8_password_default_exclusion
    (recurse : String → SymList → SymList → SymList → SymList → Bool → Bool →
      Cache → TyObj × Cache)
    (model : ModelS) (exclude inc relationships extras : SymList)
    (aO iV uD : Bool) (name : String) (bn : Option String) (cache : Cache)
    (n : String)
    (hp : strHasSub "password" n = true)
    (hi : symHasKey (if symTruthy inc then inc else .dict []) n = false) :
    n ∉ (buildFields model exclude inc aO).map Prod.fst ∧
    ((∀ pv ∈ model.virtuals, pv.1 ≠ n) →
     (∀ kv ∈ entriesOf relationships, kv.1 ≠ n) →
     (∀ kv ∈ entriesOf extras, kv.1 ≠ n) →
     n ∉ ((customSchema recurse model exclude inc relationships extras aO iV uD
        name bn cache).1).fields.map Prod.fst) := by
  have hcols : n ∉ (buildFields model exclude inc aO).map Prod.fst := by
    intro h
    rcases buildFields_fold_keys exclude inc aO n model.columns [] h with h2 | ⟨c, _, h3, h4⟩
    · simp at h2
    · rw [← h3, hp, hi] at h4
      simp at h4
  refine ⟨hcols, ?_⟩
  intro hv hr hx h
  simp only [customSchema, Schema.fields] at h
  rcases merge_fold_keys n _ _ h with h2 | h2
  · rcases merge_fold_keys n _ _ h2 with h3 | h3
    · by_cases hiv : iV
      · simp only [hiv, if_true] at h3
        rcases buildVirtual_fold_keys exclude inc n model.virtuals _ h3 with h4 | ⟨pv, hpv, h5⟩
        · exact hcols h4
        · exact hv pv hpv h5.symm
      · simp only [hiv, Bool.false_eq_true, if_false] at h3
        exact hcols h3
    · rcases relationship_fold_keys recurse model exclude inc relationships extras
        aO iV uD n (entriesOf relationships) ([], cache) h3 with h4 | ⟨kv, hkv, h5⟩
      · simp at h4
      · exact hr kv hkv h5.symm
  · rcases extras_fold_keys aO n (entriesOf extras) [] h2 with h3 | ⟨kv, hkv, h4⟩
    · simp at h3
    · exact hx kv hkv h4.symm

/-- Witness for C8: a `password_hash` column with `all_optional=false` and
no include list never appears in the generated schema. -/
theorem C8_password_default_exclusion_witness :
    "password_hash" ∉
      (buildFields userModelS (.dict []) (.dict []) false).map Prod.fst ∧
    "password_hash" ∉
      ((customSchema (fun _ _ _ _ _ _ _ c => (.fuelExhausted, c)) userModelS
        (.dict []) (.dict []) (.dict []) (.dict []) false true true
        "User$*" none []).1).fields.map Prod.fst := by
  have h := C8_password_default_exclusion
    (fun _ _ _ _ _ _ _ c => (.fuelExhausted, c)) userModelS
    (.dict []) (.dict []) (.dict []) (.dict []) false true true "User$*" none []
    "password_hash" (by decide) (by decide)
  exact ⟨h.1, h.2 (fun pv hpv => absurd hpv (List.not_mem_nil pv))
    (fun kv hkv => absurd hkv (List.not_mem_nil kv))
    (fun kv hkv => absurd hkv (List.not_mem_nil kv))⟩

/-- C10: two schema-generation calls differing only in the declared type of
an extras entry (`{"x": str}` versus `{"x": int}`) share the cache key —
the canonical encoding flattens extras to their key names — so the second
call returns the schema compiled for the first spec, whose `x` field keeps
the first spec's type rather than its own. -/
theorem C10_extras_type_cache_collision :
    genericName mRegS "M" (.dict []) (.dict []) (.dict [])
        (.dict [("x", .ty .estr)]) true true true =
      genericName mRegS "M" (.dict []) (.dict []) (.dict [])
        (.dict [("x", .ty .eint)]) true true true ∧
    genericSchema 3 mRegS "M" (.dict []) (.dict []) (.dict [])
        (.dict [("x", .ty .eint)]) true true true (some false) none false
        (genericSchema 3 mRegS "M" (.dict []) (.dict []) (.dict [])
          (.dict [("x", .ty .estr)]) true true true (some false) none false []).2 =
      ((genericSchema 3 mRegS "M" (.dict []) (.dict []) (.dict [])
          (.dict [("x", .ty .estr)]) true true true (some false) none false []).1,
        (genericSchema 3 mRegS "M" (.dict []) (.dict []) (.dict [])
          (.dict [("x", .ty .estr)]) true true true (some false) none false []).2) ∧
    (∃ s, (genericSchema 3 mRegS "M" (.dict []) (.dict []) (.dict [])
        (.dict [("x", .ty .eint)]) true true true (some false) none false
        (genericSchema 3 mRegS "M" (.dict []) (.dict []) (.dict [])
          (.dict [("x", .ty .estr)]) true true true (some false) none false []).2).1 =
        .schemaRef s ∧
      (schemaFieldOf s "x").map (fun f => etyOf f.1) = some (some .estr)) ∧
    (∃ s2, (genericSchema 3 mRegS "M" (.dict []) (.dict []) (.dict [])
        (.dict [("x", .ty .eint)]) true true true (some false) none false []).1 =
        .schemaRef s2 ∧
      (schemaFieldOf s2 "x").map (fun f => etyOf f.1) = some (some .eint)) ∧
    (some ETy.estr ≠ some ETy.eint) := by
  exact ⟨rfl, rfl, ⟨_, rfl, rfl⟩, ⟨_, rfl, rfl⟩, by decide⟩

end FastapiSolo
